import Mathlib

/-!
# CasaOS-Gateway: route table and gateway hot-reload

A shallow embedding of `service/management.go` (the route table: `CreateRoute`,
`GetRoutes`, `GetProxy`, `getSortedKeys`, `loadPathTargetMapFrom`,
`savePathTargetMapTo`, `NewManagementService`) and of the gateway service of
`main.go` (the `OnStart` hook with its scan of the ports, `reloadGateway`,
`checkURLWithRetry`, `checkURL`).

Conventions of the embedding.

* A Go `string` or `[]byte` is a list of bytes (`GoString`); `len` is `List.length`.
* A Go `map[string]V` that has been allocated is an association list with
  distinct keys (`AList`).  Go does not fix the order in which a map is ranged
  over; statements below are therefore phrased through `lookup`, key membership
  and permutations, never through the position of an entry.
* A Go map value can also be nil: reading it finds no entries, assigning to it
  panics.  The one map of the repository that can be nil is `pathTargetMap`
  (when the routes file holds the JSON literal `null`); the table records its
  entries, none in that case, together with the flag `pathTargetMapNil`.
* Functions of the Go standard library that the repository calls but does not
  define are either parameters (`Env.urlParse`, `Env.filepathJoin`, the outcome
  of `net.Listen`, the outcome of each liveness `GET`) or, for `encoding/json`
  on `map[string]string` and for `unicode/utf8`, written out after the library.
* The file system is an explicit value (`Disk`) threaded through the calls.
* A Go call either returns, panics, or does not return (`Outcome`).  Loops whose
  recursion is not structural take a fuel argument; for the one loop that Go
  does not bound, that of `checkURLWithRetry`, the answer `none` means that the
  call has not returned when the fuel is spent.
-/

namespace CasaOSGateway

/-! ## Strings and bytes -/

/-- A byte. -/
abbrev Byte := Fin 256

/-- A Go `string` (equally a `[]byte`): a finite sequence of bytes. -/
abbrev GoString := List Byte

/-- The bytes of an ASCII literal (every character of the literal is below 128). -/
def ascii (s : String) : GoString := s.toList.map (fun c => Fin.ofNat c.toNat)

/-- Go `strings.HasPrefix(s, pre)`. -/
def stringsHasPrefix (s pre : GoString) : Bool := pre.isPrefixOf s

/-- A Go `error` value. -/
structure GoError where
  msg : String
  deriving DecidableEq, Repr

/-- A Go call that came to an end: it returned a value or it panicked. -/
inductive Outcome (α : Type) where
  | returned (a : α)
  | panicked
  deriving DecidableEq, Repr

/-! ## `unicode/utf8` -/

/-- The rune `utf8.RuneError` (U+FFFD). -/
def RuneError : Nat := 0xFFFD

/-- Whether `b` is a UTF-8 continuation byte inside the range `lo..hi`. -/
def inRange (lo hi : Nat) (b : Byte) : Bool := decide (lo ≤ b.val) && decide (b.val ≤ hi)

/-- Go `utf8.DecodeRuneInString`: the first rune of `s` and its width in bytes.
An ill-formed or truncated sequence gives `(RuneError, 1)`, the empty string
`(RuneError, 0)`. -/
def decodeRune : GoString → Nat × Nat
  | [] => (RuneError, 0)
  | b0 :: rest =>
    let x := b0.val
    if x < 0x80 then (x, 1)
    else if x < 0xC2 then (RuneError, 1)
    else if x < 0xE0 then
      match rest with
      | b1 :: _ =>
        if inRange 0x80 0xBF b1 then ((x - 0xC0) * 64 + (b1.val - 0x80), 2) else (RuneError, 1)
      | [] => (RuneError, 1)
    else if x < 0xF0 then
      match rest with
      | b1 :: b2 :: _ =>
        let lo := if x = 0xE0 then 0xA0 else 0x80
        let hi := if x = 0xED then 0x9F else 0xBF
        if inRange lo hi b1 && inRange 0x80 0xBF b2 then
          ((x - 0xE0) * 4096 + (b1.val - 0x80) * 64 + (b2.val - 0x80), 3)
        else (RuneError, 1)
      | _ => (RuneError, 1)
    else if x < 0xF5 then
      match rest with
      | b1 :: b2 :: b3 :: _ =>
        let lo := if x = 0xF0 then 0x90 else 0x80
        let hi := if x = 0xF4 then 0x8F else 0xBF
        if inRange lo hi b1 && inRange 0x80 0xBF b2 && inRange 0x80 0xBF b3 then
          ((x - 0xF0) * 262144 + (b1.val - 0x80) * 4096 + (b2.val - 0x80) * 64 + (b3.val - 0x80), 4)
        else (RuneError, 1)
      | _ => (RuneError, 1)
    else (RuneError, 1)

/-- Go `utf8.AppendRune`: the UTF-8 encoding of rune `r`; surrogates and values
above U+10FFFF are written as U+FFFD. -/
def encodeRune (r : Nat) : GoString :=
  if r ≤ 0x7F then [Fin.ofNat r]
  else if r ≤ 0x7FF then [Fin.ofNat (0xC0 + r / 64), Fin.ofNat (0x80 + r % 64)]
  else if 0x10FFFF < r ∨ (0xD800 ≤ r ∧ r ≤ 0xDFFF) then [0xEF, 0xBF, 0xBD]
  else if r ≤ 0xFFFF then
    [Fin.ofNat (0xE0 + r / 4096), Fin.ofNat (0x80 + r / 64 % 64), Fin.ofNat (0x80 + r % 64)]
  else
    [Fin.ofNat (0xF0 + r / 262144), Fin.ofNat (0x80 + r / 4096 % 64),
      Fin.ofNat (0x80 + r / 64 % 64), Fin.ofNat (0x80 + r % 64)]

/-- Go `utf8.ValidString`: no position of `s` decodes to an encoding error.
The fuel bounds the number of runes; `validUTF8` passes the length. -/
def validUTF8Loop : Nat → GoString → Bool
  | 0, s => s.isEmpty
  | _ + 1, [] => true
  | fuel + 1, b :: rest =>
    let d := decodeRune (b :: rest)
    if d.1 = RuneError ∧ d.2 = 1 then false
    else validUTF8Loop fuel ((b :: rest).drop d.2)

/-- Go `utf8.ValidString`. -/
def validUTF8 (s : GoString) : Bool := validUTF8Loop s.length s

/-! ## Maps -/

/-- An allocated Go `map[string]V`. -/
abbrev GoMap (V : Type) := AList (fun _ : GoString => V)

/-- The `path -> target` mapping, `map[string]string`. -/
abbrev TargetMap := GoMap GoString

/-! ## `encoding/json` on `map[string]string` -/

/-- The table `hex` of `encoding/json`: the lower-case hexadecimal digit of `n < 16`. -/
def hexDigit (n : Nat) : Byte := if n < 10 then Fin.ofNat (0x30 + n) else Fin.ofNat (0x57 + n)

/-- The table `htmlSafeSet` of `encoding/json`: ASCII bytes written unescaped
when HTML escaping is on (as it is in `json.Marshal`): everything from space
upwards except the double quote, the backslash, `<`, `>` and `&`. -/
def htmlSafe (b : Byte) : Bool :=
  decide (0x20 ≤ b.val) && decide (b.val < 0x80) &&
    !(b.val == 0x22 || b.val == 0x5C || b.val == 0x3C || b.val == 0x3E || b.val == 0x26)

/-- The escape `encoding/json` writes for an ASCII byte outside `htmlSafeSet`. -/
def escapeByte (b : Byte) : GoString :=
  if b.val = 0x5C ∨ b.val = 0x22 then [0x5C, b]
  else if b.val = 0x08 then [0x5C, 0x62]
  else if b.val = 0x0C then [0x5C, 0x66]
  else if b.val = 0x0A then [0x5C, 0x6E]
  else if b.val = 0x0D then [0x5C, 0x72]
  else if b.val = 0x09 then [0x5C, 0x74]
  else [0x5C, 0x75, 0x30, 0x30, hexDigit (b.val / 16), hexDigit (b.val % 16)]

/-- The loop of `appendString` in `encoding/json` (with `escapeHTML` set): the
body of the JSON string literal for `src`.  Bytes in `htmlSafeSet` and
well-formed multi-byte runes are copied, other ASCII bytes are escaped, a byte
that is not part of well-formed UTF-8 becomes the escape of U+FFFD (backslash,
`ufffd`), and U+2028 and U+2029 are written as escapes (`u2028`, `u2029`). -/
def appendStringLoop : Nat → GoString → GoString
  | 0, _ => []
  | _ + 1, [] => []
  | fuel + 1, b :: rest =>
    if b.val < 0x80 then
      if htmlSafe b then b :: appendStringLoop fuel rest
      else escapeByte b ++ appendStringLoop fuel rest
    else
      let d := decodeRune (b :: rest)
      if d.1 = RuneError ∧ d.2 = 1 then
        [0x5C, 0x75, 0x66, 0x66, 0x66, 0x64] ++ appendStringLoop fuel rest
      else if d.1 = 0x2028 ∨ d.1 = 0x2029 then
        [0x5C, 0x75, 0x32, 0x30, 0x32, hexDigit (d.1 % 16)] ++
          appendStringLoop fuel ((b :: rest).drop d.2)
      else
        (b :: rest).take d.2 ++ appendStringLoop fuel ((b :: rest).drop d.2)

/-- The function `appendString` of `encoding/json`: `src` as a quoted JSON string. -/
def appendString (src : GoString) : GoString :=
  0x22 :: (appendStringLoop src.length src ++ [0x22])

/-- The key/value pairs of a map in the order `encoding/json` writes them:
sorted by key, bytewise. -/
def sortedPairs (m : TargetMap) : List (GoString × GoString) :=
  (m.entries.map (fun e => (e.1, e.2))).insertionSort (fun a b => a.1 ≤ b.1)

/-- The members of a JSON object, separated by commas. -/
def joinMembers : List (GoString × GoString) → GoString
  | [] => []
  | [kv] => appendString kv.1 ++ 0x3A :: appendString kv.2
  | kv :: kvs => appendString kv.1 ++ 0x3A :: appendString kv.2 ++ 0x2C :: joinMembers kvs

/-- Go `json.Marshal` applied to an allocated `map[string]string`: a JSON object
with the keys in sorted order.  For this type `json.Marshal` returns no error. -/
def jsonMarshal (m : TargetMap) : GoString :=
  0x7B :: (joinMembers (sortedPairs m) ++ [0x7D])

/-- The predicate `isSpace` of the `encoding/json` scanner. -/
def isSpace (c : Byte) : Bool := c.val == 0x20 || c.val == 0x09 || c.val == 0x0D || c.val == 0x0A

/-- Skip JSON white space. -/
def skipSpace : GoString → GoString
  | [] => []
  | c :: rest => if isSpace c then skipSpace rest else c :: rest

/-- A hexadecimal digit, either case. -/
def isHex (c : Byte) : Bool :=
  inRange 0x30 0x39 c || inRange 0x61 0x66 c || inRange 0x41 0x46 c

/-- The value of a hexadecimal digit. -/
def hexVal (c : Byte) : Nat :=
  if inRange 0x30 0x39 c then c.val - 0x30
  else if inRange 0x61 0x66 c then c.val - 0x61 + 10
  else c.val - 0x41 + 10

/-- The string states of the `encoding/json` scanner: given the input after an
opening quote, the raw body of the literal and the input after the closing
quote; `none` on a syntax error (a control byte, a bad escape, no closing
quote). -/
def scanString : GoString → Option (GoString × GoString)
  | [] => none
  | c :: rest =>
    if c.val = 0x22 then some ([], rest)
    else if c.val = 0x5C then
      match rest with
      | [] => none
      | e :: rest1 =>
        if e.val = 0x75 then
          match rest1 with
          | h1 :: h2 :: h3 :: h4 :: rest2 =>
            if isHex h1 && isHex h2 && isHex h3 && isHex h4 then
              (scanString rest2).map (fun r => (c :: e :: h1 :: h2 :: h3 :: h4 :: r.1, r.2))
            else none
          | _ => none
        else if e.val = 0x62 ∨ e.val = 0x66 ∨ e.val = 0x6E ∨ e.val = 0x72 ∨ e.val = 0x74 ∨
            e.val = 0x5C ∨ e.val = 0x2F ∨ e.val = 0x22 then
          (scanString rest1).map (fun r => (c :: e :: r.1, r.2))
        else none
    else if c.val < 0x20 then none
    else (scanString rest).map (fun r => (c :: r.1, r.2))

/-- The function `getu4` of `encoding/json`: the rune of a leading escape (backslash,
`u`, four hexadecimal digits), if the input starts with one. -/
def getu4 : GoString → Option Nat
  | c :: e :: h1 :: h2 :: h3 :: h4 :: _ =>
    if c.val = 0x5C ∧ e.val = 0x75 ∧ isHex h1 ∧ isHex h2 ∧ isHex h3 ∧ isHex h4 then
      some (hexVal h1 * 4096 + hexVal h2 * 256 + hexVal h3 * 16 + hexVal h4)
    else none
  | _ => none

/-- Go `utf16.DecodeRune`: the code point of a surrogate pair, U+FFFD when the
two halves do not form one (`none` stands for the `-1` of a failed `getu4`). -/
def utf16DecodeRune (r1 : Nat) (r2 : Option Nat) : Nat :=
  match r2 with
  | some r2 =>
    if 0xD800 ≤ r1 ∧ r1 < 0xDC00 ∧ 0xDC00 ≤ r2 ∧ r2 < 0xE000 then
      (r1 - 0xD800) * 1024 + (r2 - 0xDC00) + 0x10000
    else RuneError
  | none => RuneError

/-- The function `unquoteBytes` of `encoding/json` on the body of a literal
(the text between the quotes): escapes are resolved and the text is coerced to
well-formed UTF-8; `none` is the `ok = false` of the Go function. -/
def unquoteLoop : Nat → GoString → Option GoString
  | 0, s => if s.isEmpty then some [] else none
  | _ + 1, [] => some []
  | fuel + 1, c :: rest =>
    if c.val = 0x5C then
      match rest with
      | [] => none
      | e :: rest1 =>
        if e.val = 0x22 ∨ e.val = 0x5C ∨ e.val = 0x2F ∨ e.val = 0x27 then
          (unquoteLoop fuel rest1).map (fun t => e :: t)
        else if e.val = 0x62 then (unquoteLoop fuel rest1).map (fun t => 0x08 :: t)
        else if e.val = 0x66 then (unquoteLoop fuel rest1).map (fun t => 0x0C :: t)
        else if e.val = 0x6E then (unquoteLoop fuel rest1).map (fun t => 0x0A :: t)
        else if e.val = 0x72 then (unquoteLoop fuel rest1).map (fun t => 0x0D :: t)
        else if e.val = 0x74 then (unquoteLoop fuel rest1).map (fun t => 0x09 :: t)
        else if e.val = 0x75 then
          match getu4 (c :: rest) with
          | none => none
          | some rr =>
            let rest2 := rest1.drop 4
            if 0xD800 ≤ rr ∧ rr < 0xE000 then
              let dec := utf16DecodeRune rr (getu4 rest2)
              if dec ≠ RuneError then
                (unquoteLoop fuel (rest2.drop 6)).map (fun t => encodeRune dec ++ t)
              else (unquoteLoop fuel rest2).map (fun t => encodeRune RuneError ++ t)
            else (unquoteLoop fuel rest2).map (fun t => encodeRune rr ++ t)
        else none
    else if c.val = 0x22 ∨ c.val < 0x20 then none
    else if c.val < 0x80 then (unquoteLoop fuel rest).map (fun t => c :: t)
    else
      let d := decodeRune (c :: rest)
      (unquoteLoop fuel ((c :: rest).drop d.2)).map (fun t => encodeRune d.1 ++ t)

/-- The function `unquoteBytes` of `encoding/json`, applied to the body of a literal. -/
def unquote (body : GoString) : Option GoString := unquoteLoop body.length body

/-- A JSON string literal at the head of the input (after its opening quote):
the decoded Go string and the remaining input. -/
def parseString (s : GoString) : Option (GoString × GoString) :=
  match scanString s with
  | none => none
  | some (body, rest) =>
    match unquote body with
    | none => none
    | some v => some (v, rest)

/-- The value of an object member when the target is `map[string]string`: a
string literal, or `null`, which leaves the element at its zero value, the
empty string.  Any other JSON value is an error for this target (a type error
if it is well-formed, a syntax error if not). -/
def parseMemberValue : GoString → Option (GoString × GoString)
  | [] => none
  | c :: rest =>
    if c.val = 0x22 then parseString rest
    else
      match c :: rest with
      | n :: u :: l1 :: l2 :: rest1 =>
        if n.val = 0x6E ∧ u.val = 0x75 ∧ l1.val = 0x6C ∧ l2.val = 0x6C then some ([], rest1)
        else none
      | _ => none

/-- The members of a JSON object decoded into a `map[string]string`, starting at
the first key (its opening quote is the next byte after white space) and
ending after the closing brace.  A key that occurs again overwrites the
earlier value. -/
def parseMembers : Nat → GoString → TargetMap → Option (TargetMap × GoString)
  | 0, _, _ => none
  | fuel + 1, s, acc =>
    match skipSpace s with
    | [] => none
    | q :: afterQuote =>
      if q.val ≠ 0x22 then none
      else
        match parseString afterQuote with
        | none => none
        | some (key, afterKey) =>
          match skipSpace afterKey with
          | [] => none
          | colon :: afterColon =>
            if colon.val ≠ 0x3A then none
            else
              match parseMemberValue (skipSpace afterColon) with
              | none => none
              | some (val, afterVal) =>
                match skipSpace afterVal with
                | [] => none
                | d :: afterDelim =>
                  if d.val = 0x7D then some (acc.insert key val, afterDelim)
                  else if d.val = 0x2C then parseMembers fuel afterDelim (acc.insert key val)
                  else none

/-- The map obtained by assigning the pairs of `l` to `acc` in order, as the
decoder does with the members of an object. -/
def insertPairs (acc : TargetMap) (l : List (GoString × GoString)) : TargetMap :=
  l.foldl (fun a kv => a.insert kv.1 kv.2) acc

/-- Go `json.Unmarshal(content, &pathTargetMap)` for a `map[string]string`:
`some m` when it returns no error, `none` when it returns one.  The input is
accepted when it is, between optional white space, a JSON object whose member
values are strings or `null`, or the literal `null`.  The literal `null`
makes the Go map nil; a nil map has no entries, so the entries returned for it
are those of the empty map, and `jsonIsNull` tells the case apart. -/
def jsonUnmarshal (content : GoString) : Option TargetMap :=
  match skipSpace content with
  | [] => none
  | c :: rest =>
    if c.val = 0x7B then
      match skipSpace rest with
      | [] => none
      | d :: rest1 =>
        if d.val = 0x7D then
          if (skipSpace rest1).isEmpty then some ∅ else none
        else
          match parseMembers content.length (d :: rest1) ∅ with
          | none => none
          | some (m, tail) => if (skipSpace tail).isEmpty then some m else none
    else
      match c :: rest with
      | n :: u :: l1 :: l2 :: rest1 =>
        if n.val = 0x6E ∧ u.val = 0x75 ∧ l1.val = 0x6C ∧ l2.val = 0x6C ∧
            (skipSpace rest1).isEmpty then some ∅
        else none
      | _ => none

/-- Whether `json.Unmarshal(content, &pathTargetMap)` leaves the map nil: the
input is, between optional white space, the literal `null`.  Go then returns
no error. -/
def jsonIsNull (content : GoString) : Bool :=
  match skipSpace content with
  | n :: u :: l1 :: l2 :: rest1 =>
    decide (n.val = 0x6E ∧ u.val = 0x75 ∧ l1.val = 0x6C ∧ l2.val = 0x6C) &&
      (skipSpace rest1).isEmpty
  | _ => false

/-! ## The file system -/

/-- The part of the file system the route table touches.  `files name` is the
content `os.ReadFile name` returns (`none`: the read fails, for instance
because the file does not exist); `writes` counts the calls of `os.WriteFile`
so far, and `writeError n name` is the error the call number `n` fails with
when it writes `name`, if it fails. -/
structure Disk where
  files : GoString → Option GoString
  writes : Nat
  writeError : Nat → GoString → Option GoError

/-- Go `os.ReadFile`. -/
def osReadFile (d : Disk) (name : GoString) : Except GoError GoString :=
  match d.files name with
  | some content => .ok content
  | none => .error ⟨"open: cannot read file"⟩

/-- Go `os.WriteFile`: on success the file holds exactly `data`.  A failed
write is modelled as leaving the stored content as it was. -/
def osWriteFile (d : Disk) (name : GoString) (data : GoString) : Disk × Option GoError :=
  match d.writeError d.writes name with
  | some e => ({ d with writes := d.writes + 1 }, some e)
  | none =>
    ({ d with
        files := fun n => if n = name then some data else d.files n
        writes := d.writes + 1 }, none)

/-! ## `service/management.go` -/

/-- The fields of Go `url.URL` the route table can observe. -/
structure URL where
  Scheme : GoString
  Host : GoString
  Path : GoString
  deriving DecidableEq, Repr

/-- Go `(*url.URL).IsAbs`: the URL has a scheme. -/
def URL.IsAbs (u : URL) : Bool := !u.Scheme.isEmpty

/-- A Go `*httputil.ReverseProxy` built by `httputil.NewSingleHostReverseProxy`:
a handler forwarding to `target`.  The constructor never returns nil. -/
structure ReverseProxy where
  target : URL
  deriving DecidableEq, Repr

/-- Go `httputil.NewSingleHostReverseProxy`. -/
def NewSingleHostReverseProxy (target : URL) : ReverseProxy := ⟨target⟩

/-- The type `model.Route` of CasaOS-Common. -/
structure Route where
  Path : GoString
  Target : GoString
  deriving DecidableEq, Repr

/-- Modelled from the spec: the type `State` of `service/state.go`, which holds
the runtime directory, the gateway port and the path of the UI assets. -/
structure State where
  runtimePath : GoString
  gatewayPort : GoString
  wwwPath : GoString
  deriving DecidableEq, Repr

/-- Modelled from the spec: `(*State).GetRuntimePath` of `service/state.go`. -/
def State.GetRuntimePath (s : State) : GoString := s.runtimePath

/-- Standard-library functions the route table calls: `url.Parse` and
`filepath.Join`. -/
structure Env where
  urlParse : GoString → Except GoError URL
  filepathJoin : GoString → GoString → GoString

/-- The constant `RoutesFile`. -/
def RoutesFile : GoString := ascii "routes.json"

/-- The struct `Management`.  The Go map `pathTargetMap` is given by its
entries and by `pathTargetMapNil`, which tells that it is the nil map (it then
has no entries).  `pathReverseProxyMap` is always allocated. -/
structure Management where
  pathTargetMap : TargetMap
  pathTargetMapNil : Bool
  pathReverseProxyMap : GoMap ReverseProxy
  State : State

/-- The function `loadPathTargetMapFrom`: the error, or the entries of the map
it returns (none when that map is nil, see `loadedMapIsNil`). -/
def loadPathTargetMapFrom (d : Disk) (routesFilepath : GoString) : Except GoError TargetMap :=
  match osReadFile d routesFilepath with
  | .error err => .error err
  | .ok content =>
    match jsonUnmarshal content with
    | none => .error ⟨"json: cannot unmarshal"⟩
    | some pathTargetMap => .ok pathTargetMap

/-- Whether the map `loadPathTargetMapFrom` returns, without error, is the nil
map: the file can be read and holds the JSON literal `null`, for which
`json.Unmarshal` sets the map made before the call to nil. -/
def loadedMapIsNil (d : Disk) (routesFilepath : GoString) : Bool :=
  match osReadFile d routesFilepath with
  | .error _ => false
  | .ok content => jsonIsNull content

/-- The function `savePathTargetMapTo`. -/
def savePathTargetMapTo (d : Disk) (routesFilepath : GoString) (pathTargetMap : TargetMap) :
    Disk × Option GoError :=
  osWriteFile d routesFilepath (jsonMarshal pathTargetMap)

/-- One round of the loop of `NewManagementService` that builds the handlers:
a target that does not parse is logged and skipped. -/
def addProxy (env : Env) (acc : GoMap ReverseProxy) (e : Σ _ : GoString, GoString) :
    GoMap ReverseProxy :=
  match env.urlParse e.2 with
  | .error _ => acc
  | .ok targetURL => acc.insert e.1 (NewSingleHostReverseProxy targetURL)

/-- The function `NewManagementService`.  When the load fails the table gets a
map made afresh; when it succeeds the table keeps the map that was loaded,
nil or not. -/
def NewManagementService (env : Env) (d : Disk) (state : State) : Management :=
  let routesFilepath := env.filepathJoin state.GetRuntimePath RoutesFile
  let pathTargetMap : TargetMap :=
    match loadPathTargetMapFrom d routesFilepath with
    | .error _ => ∅
    | .ok m => m
  let pathTargetMapNil : Bool :=
    match loadPathTargetMapFrom d routesFilepath with
    | .error _ => false
    | .ok _ => loadedMapIsNil d routesFilepath
  let pathReverseProxyMap := pathTargetMap.entries.foldl (addProxy env) ∅
  { pathTargetMap := pathTargetMap
    pathTargetMapNil := pathTargetMapNil
    pathReverseProxyMap := pathReverseProxyMap
    State := state }

/-- What a call of `CreateRoute` leaves behind: the table, the file system, and
in `err` what the call did: it returned an error (`none` for nil) or it
panicked. -/
structure CreateRouteResult where
  g : Management
  disk : Disk
  err : Outcome (Option GoError)

/-- The method `(*Management).CreateRoute`.  The assignment
`g.pathTargetMap[route.Path] = route.Target` panics when `pathTargetMap` is
the nil map; nothing has been changed at that point. -/
def CreateRoute (env : Env) (g : Management) (d : Disk) (route : Route) : CreateRouteResult :=
  match env.urlParse route.Target with
  | .error err => { g := g, disk := d, err := .returned (some err) }
  | .ok url =>
    if g.pathTargetMapNil then { g := g, disk := d, err := .panicked }
    else
      let g1 : Management :=
        { g with
          pathTargetMap := g.pathTargetMap.insert route.Path route.Target
          pathReverseProxyMap :=
            g.pathReverseProxyMap.insert route.Path (NewSingleHostReverseProxy url) }
      let routesFilePath := env.filepathJoin g1.State.GetRuntimePath RoutesFile
      match savePathTargetMapTo d routesFilePath g1.pathTargetMap with
      | (d1, some err) => { g := g1, disk := d1, err := .returned (some err) }
      | (d1, none) => { g := g1, disk := d1, err := .returned none }

/-- The table `CreateRoute` leaves when the target parses to `u` and
`pathTargetMap` is allocated: both maps assigned at `route.Path`. -/
def insertRoute (g : Management) (route : Route) (u : URL) : Management :=
  { g with
    pathTargetMap := g.pathTargetMap.insert route.Path route.Target
    pathReverseProxyMap := g.pathReverseProxyMap.insert route.Path (NewSingleHostReverseProxy u) }

/-- A sequence of `CreateRoute` calls, each on the table and file system the
previous one left (a call that panicked left them as they were). -/
def createRoutes (env : Env) (g : Management) (d : Disk) : List Route → Management × Disk
  | [] => (g, d)
  | r :: rs =>
    let res := CreateRoute env g d r
    createRoutes env res.g res.disk rs

/-- The method `(*Management).GetRoutes`, ranging over the map in the order of
the association list. -/
def GetRoutes (g : Management) : List Route :=
  g.pathTargetMap.entries.map (fun e => { Path := e.1, Target := e.2 })

/-- The function `getSortedKeys` for one order of ranging over the map and one
sorting algorithm: the keys, longest first. -/
def getSortedKeys {V : Type} (m : GoMap V) : List GoString :=
  m.keys.insertionSort (fun a b => a.length ≥ b.length)

/-- What `getSortedKeys` may return, whatever the order in which Go ranges
over the map and whatever `sort.Slice` does with keys of equal length: the
keys of the map, each once, with no key placed before a longer one. -/
def IsSortedKeys {V : Type} (m : GoMap V) (keys : List GoString) : Prop :=
  keys.Perm m.keys ∧ keys.Pairwise (fun a b => ¬ (b.length > a.length))

/-- The loop of `GetProxy` over the sorted keys `paths`: the handler under the
first key that is a prefix of `path`, `none` (nil) if there is none. -/
def GetProxyLoop (m : GoMap ReverseProxy) (path : GoString) : List GoString → Option ReverseProxy
  | [] => none
  | p :: paths => if stringsHasPrefix path p then m.lookup p else GetProxyLoop m path paths

/-- The method `(*Management).GetProxy`. -/
def GetProxy (g : Management) (path : GoString) : Option ReverseProxy :=
  GetProxyLoop g.pathReverseProxyMap path (getSortedKeys g.pathReverseProxyMap)

/-- The table before any route is created: both maps allocated and empty. -/
def emptyManagement (state : State) : Management :=
  { pathTargetMap := ∅, pathTargetMapNil := false, pathReverseProxyMap := ∅, State := state }

/-! ## `main.go`: the liveness check and the reload of the gateway -/

/-- The part of a Go `*http.Response` that `checkURL` reads. -/
structure Response where
  StatusCode : Nat
  deriving DecidableEq, Repr

/-- What `http2.Get` hands back: a response pointer, nil or not, and an error,
nil or not.  The Go client gives a nil response together with a non-nil error
when the request fails in transport (refused connection, timeout). -/
structure GetResult where
  response : Option Response
  err : Option GoError
  deriving DecidableEq, Repr

/-- The constant `http.StatusOK`. -/
def StatusOK : Nat := 200

/-- The variable `ErrCheckURLNotOK`. -/
def ErrCheckURLNotOK : GoError := ⟨"check url did not return 200 OK"⟩

/-- The function `checkURL`, given what its `http2.Get` returns.  The deferred
`response.Body.Close()` evaluates `response.Body` when the `defer` statement
runs, which panics on a nil `response`. -/
def checkURL (get : GetResult) : Outcome (Option GoError) :=
  match get.err with
  | none => .returned none
  | some _ =>
    match get.response with
    | none => .panicked
    | some response =>
      if response.StatusCode = StatusOK then .returned (some ErrCheckURLNotOK)
      else .returned none

/-- The number of values of the Go type `uint` on a 64-bit platform. -/
def uintSize : Nat := 2 ^ 64

/-- The loop of `checkURLWithRetry`.  `gets i` is what the `GET` of attempt
`i` returns, `count` the unsigned counter, `err` the variable `err`;
`count--` wraps around at zero.  The pause between attempts is not
represented.  `none`: the loop is still running when the fuel is spent. -/
def checkURLWithRetryLoop (gets : Nat → GetResult) :
    Nat → Nat → Nat → Option GoError → Option (Outcome (Option GoError))
  | 0, _, _, _ => none
  | fuel + 1, i, count, err =>
    if count ≥ 0 then
      match checkURL (gets i) with
      | .panicked => some .panicked
      | .returned (some e) =>
        checkURLWithRetryLoop gets fuel (i + 1) ((count + uintSize - 1) % uintSize) (some e)
      | .returned none => some (.returned none)
    else some (.returned err)

/-- The function `checkURLWithRetry`; `fuel` bounds the number of attempts
that are followed. -/
def checkURLWithRetry (gets : Nat → GetResult) (retry : Nat) (fuel : Nat) :
    Option (Outcome (Option GoError)) :=
  checkURLWithRetryLoop gets fuel 0 (retry % uintSize) none

/-- A Go `*http.Server` as far as the reload is concerned: its address. -/
structure Server where
  Addr : GoString
  deriving DecidableEq, Repr

/-- The state the reload acts on: the variable `_gateway`, the addresses of the
listening sockets that are open, the servers on which a goroutine runs
`Serve`, and the servers whose `Shutdown` has been scheduled. -/
structure Gateways where
  gateway : Option Server
  listeners : List GoString
  serving : List Server
  stopping : List Server
  deriving DecidableEq, Repr

/-- The test `_gateway != nil && _gateway.Addr == addr`. -/
def isCurrentAddr (gateway : Option Server) (addr : GoString) : Bool :=
  match gateway with
  | none => false
  | some g => decide (g.Addr = addr)

/-- The function `reloadGateway`.  `netListen port` is what `net.Listen`
returns for the port: an error, or a listener, given by its address.
`gets i` is what the `GET` of attempt `i` of the liveness check returns,
`fuel` bounds the attempts followed (`none`: the call has not returned). -/
def reloadGateway (netListen : GoString → Except GoError GoString) (gets : Nat → GetResult)
    (w : Gateways) (port : GoString) (fuel : Nat) :
    Option (Outcome (Option GoError) × Gateways) :=
  match netListen port with
  | .error err => some (.returned (some err), w)
  | .ok addr =>
    let w1 : Gateways := { w with listeners := addr :: w.listeners }
    if isCurrentAddr w1.gateway addr then some (.returned none, w1)
    else
      let gatewayNew : Server := { Addr := addr }
      let w2 : Gateways := { w1 with serving := gatewayNew :: w1.serving }
      match checkURLWithRetry gets 10 fuel with
      | none => none
      | some .panicked => some (.panicked, w2)
      | some (.returned (some err)) => some (.returned (some err), w2)
      | some (.returned none) =>
        let w3 : Gateways :=
          match w2.gateway with
          | some gatewayOld => { w2 with stopping := gatewayOld :: w2.stopping }
          | none => w2
        some (.returned none, { w3 with gateway := some gatewayNew })

/-! ## `main.go`: start-up of the gateway service -/

/-- Modelled from the spec: `(*State).GetGatewayPort` of `service/state.go`. -/
def State.GetGatewayPort (s : State) : GoString := s.gatewayPort

/-- Modelled from the spec: `(*State).SetGatewayPort` of `service/state.go`.
The port is committed, then the observers registered so far are invoked;
`notify port` is the error they report, if any.  A failing observer does not
undo the commit. -/
def State.SetGatewayPort (s : State) (notify : GoString → Option GoError) (port : GoString) :
    State × Option GoError :=
  ({ s with gatewayPort := port }, notify port)

/-- Go `fmt.Sprintf("%d", p)` for a port number. -/
def sprintfD (p : Nat) : GoString := ascii (Nat.repr p)

/-- The slice `portsToCheck`: 80 to 89, then 8080 to 8089. -/
def portsToCheck : List Nat := List.range' 80 10 ++ List.range' 8080 10

/-- The loop over `portsToCheck` in the start-up hook, returning the variable
`port` as the loop leaves it.  `probe port` is what `net.Listen` returns for
the port during the scan, `closeError port` the error of `listener.Close()`,
if it fails.  `port` is assigned before the port is tried. -/
def scanPorts (probe : GoString → Except GoError GoString)
    (closeError : GoString → Option GoError) : List Nat → GoString → GoString
  | [], port => port
  | p :: ps, _ =>
    let port := sprintfD p
    match probe port with
    | .ok _ =>
      match closeError port with
      | some _ => scanPorts probe closeError ps port
      | none => port
    | .error _ => scanPorts probe closeError ps port

/-- The error the start-up hook returns when `port` is empty after the scan. -/
def ErrNoPortAvailable : GoError := ⟨"No port available for gateway to use"⟩

/-- What the start-up hook of the gateway service acts on: the state
`_state`, the gateways, the ports `SetGatewayPort` was called with and the
ports `reloadGateway` was called with (latest first), whether the reload has
been registered with `OnGatewayPortChange`, and whether
`_gatewayServiceReady` has been signalled. -/
structure Startup where
  state : State
  gateways : Gateways
  setPortCalls : List GoString
  reloadCalls : List GoString
  reloadRegistered : Bool
  ready : Bool
  deriving DecidableEq, Repr

/-- The part of the start-up hook after the port is known: the reload is
registered as an observer, `reloadGateway` is called with the port of the
state, and on success readiness is signalled. -/
def startGateway (netListen : GoString → Except GoError GoString) (gets : Nat → GetResult)
    (w : Startup) (fuel : Nat) : Option (Outcome (Option GoError) × Startup) :=
  let w1 : Startup :=
    { w with reloadRegistered := true, reloadCalls := w.state.GetGatewayPort :: w.reloadCalls }
  match reloadGateway netListen gets w1.gateways w1.state.GetGatewayPort fuel with
  | none => none
  | some (.panicked, g) => some (.panicked, { w1 with gateways := g })
  | some (.returned (some err), g) => some (.returned (some err), { w1 with gateways := g })
  | some (.returned none, g) => some (.returned none, { w1 with gateways := g, ready := true })

/-- The `OnStart` hook of the gateway service in `run`.  `probe` and
`closeError` are what `net.Listen` and `listener.Close()` do during the scan
of the ports, `notify` is what the observers registered before start-up report
to `SetGatewayPort`, `netListen` and `gets` are what `net.Listen` and the
liveness requests do during the reload. -/
def gatewayOnStart (probe : GoString → Except GoError GoString)
    (closeError : GoString → Option GoError) (notify : GoString → Option GoError)
    (netListen : GoString → Except GoError GoString) (gets : Nat → GetResult)
    (w : Startup) (fuel : Nat) : Option (Outcome (Option GoError) × Startup) :=
  if w.state.GetGatewayPort = [] then
    let port := scanPorts probe closeError portsToCheck []
    if port = [] then some (.returned (some ErrNoPortAvailable), w)
    else
      match w.state.SetGatewayPort notify port with
      | (s1, some err) =>
        some (.returned (some err), { w with state := s1, setPortCalls := port :: w.setPortCalls })
      | (s1, none) =>
        startGateway netListen gets
          { w with state := s1, setPortCalls := port :: w.setPortCalls } fuel
  else startGateway netListen gets w fuel

/-! ## Concrete values for the scenarios -/

/-- The answers of Go `url.Parse` on the targets used in the scenarios of this
file: `http://x` and `http://y` parse to a URL with scheme and host, the
empty string and `foo/bar` parse to a URL without scheme and host, and `:` is
rejected (missing protocol scheme).  Other inputs are not used; the general
theorems quantify over the parser. -/
def scenarioParse (raw : GoString) : Except GoError URL :=
  if raw = ascii "http://x" then .ok ⟨ascii "http", ascii "x", []⟩
  else if raw = ascii "http://y" then .ok ⟨ascii "http", ascii "y", []⟩
  else if raw = [] then .ok ⟨[], [], []⟩
  else if raw = ascii "foo/bar" then .ok ⟨[], [], ascii "foo/bar"⟩
  else .error ⟨"parse: missing protocol scheme"⟩

/-- The environment of the scenarios; `filepath.Join` on a clean directory and
a file name. -/
def scenarioEnv : Env :=
  { urlParse := scenarioParse
    filepathJoin := fun dir name => dir ++ 0x2F :: name }

/-- A runtime directory `/run`, port unassigned. -/
def scenarioState : State := ⟨ascii "/run", [], []⟩

/-- A file system with no files on which every write succeeds. -/
def emptyDisk : Disk := { files := fun _ => none, writes := 0, writeError := fun _ _ => none }

/-- A file system whose routes file, `/run/routes.json`, holds the JSON object
with the single member `"/x": ":"`; every write succeeds. -/
def staleDisk : Disk :=
  { files := fun n =>
      if n = ascii "/run/routes.json" then some (ascii "\x7b\"/x\":\":\"\x7d") else none
    writes := 0
    writeError := fun _ _ => none }

/-- A map with one key, the single byte 0xFF (not well-formed UTF-8), mapped
to the empty string. -/
def illFormedKeyMap : TargetMap := (∅ : TargetMap).insert [0xFF] []

/-- A file system whose routes file, `/run/routes.json`, holds the JSON literal
`null`; every write succeeds. -/
def nullDisk : Disk :=
  { files := fun n => if n = ascii "/run/routes.json" then some (ascii "null") else none
    writes := 0
    writeError := fun _ _ => none }

/-- A file system with no files on which every write fails. -/
def readOnlyDisk : Disk :=
  { files := fun _ => none
    writes := 0
    writeError := fun _ _ => some ⟨"open: read-only file system"⟩ }

/-- A gateway serving on `:80`. -/
def servingOn80 : Gateways :=
  { gateway := some ⟨ascii ":80"⟩
    listeners := [ascii ":80"]
    serving := [⟨ascii ":80"⟩]
    stopping := [] }

/-- A `net.Listen` for which port 8080 is free and every other port is busy. -/
def listenOnly8080 (port : GoString) : Except GoError GoString :=
  if port = ascii "8080" then .ok (ascii ":8080") else .error ⟨"bind: address already in use"⟩

/-- Liveness requests that all fail in transport: no response, an error. -/
def getsRefused : Nat → GetResult := fun _ => ⟨none, some ⟨"connection refused"⟩⟩

/-- Liveness requests that all complete, without error, with status 500. -/
def getsStatus500 : Nat → GetResult := fun _ => ⟨some ⟨500⟩, none⟩

/-- A `net.Listen` for which every port is busy. -/
def listenAllBusy (_ : GoString) : Except GoError GoString :=
  .error ⟨"bind: address already in use"⟩

/-- A `net.Listen` for which port 85 is free and every other port is busy. -/
def listenOnly85 (port : GoString) : Except GoError GoString :=
  if port = ascii "85" then .ok (ascii ":85") else .error ⟨"bind: address already in use"⟩

/-- The process at start-up: the port of the state is the empty sentinel, no
gateway yet, nothing called. -/
def freshStartup : Startup :=
  { state := scenarioState
    gateways := { gateway := none, listeners := [], serving := [], stopping := [] }
    setPortCalls := []
    reloadCalls := []
    reloadRegistered := false
    ready := false }

/-! ## Predicates on the table -/

/-- The handler mapping holds a key exactly when the target mapping maps the
key to a target that parses. -/
def HandlersFollowTargets (env : Env) (g : Management) : Prop :=
  ∀ k, k ∈ g.pathReverseProxyMap.keys ↔
    ∃ t u, g.pathTargetMap.lookup k = some t ∧ env.urlParse t = .ok u

/-- Every target of the target mapping parses. -/
def AllTargetsParse (env : Env) (g : Management) : Prop :=
  ∀ k t, g.pathTargetMap.lookup k = some t → ∃ u, env.urlParse t = .ok u

/-! ## Longest-prefix dispatch -/

theorem prefix_eq_of_length_le {p q s : GoString} (hp : p <+: s) (hq : q <+: s)
    (h1 : p.length ≤ q.length) (h2 : q.length ≤ p.length) : p = q := by
  have hpq : p <+: q := List.prefix_of_prefix_length_le hp hq h1
  exact hpq.eq_of_length (le_antisymm h1 h2)

theorem stringsHasPrefix_iff (s pre : GoString) : stringsHasPrefix s pre = true ↔ pre <+: s := by
  unfold stringsHasPrefix
  exact List.isPrefixOf_iff_prefix

theorem lookup_isSome_of_mem_keys {V : Type} (m : GoMap V) {p : GoString} (hp : p ∈ m.keys) :
    ∃ h, m.lookup p = some h := by
  have : (m.lookup p).isSome = true := AList.lookup_isSome.mpr (AList.mem_keys.mpr hp)
  exact Option.isSome_iff_exists.mp this

/-- On a list of keys in which no key stands before a longer one, the loop of
`GetProxy` answers with the handler of any longest key that is a prefix. -/
theorem GetProxyLoop_longest (m : GoMap ReverseProxy) (s : GoString) :
    ∀ (keys : List GoString), keys.Pairwise (fun a b => ¬ (b.length > a.length)) →
      ∀ p, p ∈ keys → p <+: s → (∀ q ∈ keys, q <+: s → q.length ≤ p.length) →
        GetProxyLoop m s keys = m.lookup p := by
  intro keys
  induction keys with
  | nil => intro _ p hp; cases hp
  | cons k ks ih =>
    intro hpair p hp hps hmax
    rw [List.pairwise_cons] at hpair
    unfold GetProxyLoop
    by_cases hk : stringsHasPrefix s k = true
    · rw [if_pos hk]
      have hks : k <+: s := (stringsHasPrefix_iff s k).mp hk
      have h1 : k.length ≤ p.length := hmax k (List.mem_cons_self _ _) hks
      have h2 : p.length ≤ k.length := by
        rcases List.mem_cons.mp hp with h | h
        · rw [h]
        · exact Nat.le_of_not_lt (hpair.1 p h)
      rw [prefix_eq_of_length_le hks hps h1 h2]
    · rw [if_neg hk]
      have hne : p ≠ k := by
        intro h
        apply hk
        rw [← h]
        exact (stringsHasPrefix_iff s p).mpr hps
      have hp2 : p ∈ ks := by
        rcases List.mem_cons.mp hp with h | h
        · exact absurd h hne
        · exact h
      exact ih hpair.2 p hp2 hps (fun q hq hqs => hmax q (List.mem_cons_of_mem _ hq) hqs)

/-- The loop of `GetProxy` answers nil exactly when none of the keys it is
given is a prefix, provided every key it is given is a key of the map. -/
theorem GetProxyLoop_none (m : GoMap ReverseProxy) (s : GoString) :
    ∀ (keys : List GoString), (∀ k ∈ keys, k ∈ m.keys) →
      (GetProxyLoop m s keys = none ↔ ∀ q ∈ keys, ¬ q <+: s) := by
  intro keys
  induction keys with
  | nil => intro _; simp [GetProxyLoop]
  | cons k ks ih =>
    intro hsub
    unfold GetProxyLoop
    have ih2 := ih (fun q hq => hsub q (List.mem_cons_of_mem _ hq))
    by_cases hk : stringsHasPrefix s k = true
    · rw [if_pos hk]
      obtain ⟨h, hh⟩ := lookup_isSome_of_mem_keys m (hsub k (List.mem_cons_self _ _))
      rw [hh]
      constructor
      · intro hcontra; cases hcontra
      · intro hall
        exact absurd ((stringsHasPrefix_iff s k).mp hk) (hall k (List.mem_cons_self _ _))
    · rw [if_neg hk, ih2]
      constructor
      · intro hall q hq
        rcases List.mem_cons.mp hq with h | h
        · rw [h]; exact fun hq2 => hk ((stringsHasPrefix_iff s k).mpr hq2)
        · exact hall q h
      · intro hall q hq
        exact hall q (List.mem_cons_of_mem _ hq)

theorem getSortedKeys_isSortedKeys {V : Type} (m : GoMap V) : IsSortedKeys m (getSortedKeys m) := by
  constructor
  · exact List.perm_insertionSort _ _
  · have hs : List.Sorted (fun a b : GoString => a.length ≥ b.length) (getSortedKeys m) := by
      haveI : IsTotal GoString (fun a b : GoString => a.length ≥ b.length) :=
        ⟨fun a b => Nat.le_total b.length a.length⟩
      haveI : IsTrans GoString (fun a b : GoString => a.length ≥ b.length) :=
        ⟨fun a b c hab hbc => Nat.le_trans hbc hab⟩
      exact List.sorted_insertionSort _ _
    exact List.Pairwise.imp (fun {a b} h => Nat.not_lt.mpr h) hs

/-- Any two key lists `getSortedKeys` may return give the same answer. -/
theorem GetProxyLoop_order_irrelevant (m : GoMap ReverseProxy) (s : GoString)
    (ks1 ks2 : List GoString) (h1 : IsSortedKeys m ks1) (h2 : IsSortedKeys m ks2) :
    GetProxyLoop m s ks1 = GetProxyLoop m s ks2 := by
  by_cases hex : ∃ q ∈ m.keys, q <+: s
  · -- a longest key that is a prefix exists
    obtain ⟨p, hp0, hmax0⟩ := Finset.exists_max_image
      (m.keys.filter (fun q => q.isPrefixOf s)).toFinset List.length (by
        obtain ⟨q, hq, hqs⟩ := hex
        exact ⟨q, List.mem_toFinset.mpr
          (List.mem_filter.mpr ⟨hq, List.isPrefixOf_iff_prefix.mpr hqs⟩)⟩)
    have hp := List.mem_toFinset.mp hp0
    have hmax : ∀ q ∈ m.keys.filter (fun q => q.isPrefixOf s), q.length ≤ p.length :=
      fun q hq => hmax0 q (List.mem_toFinset.mpr hq)
    have hpk : p ∈ m.keys := (List.mem_filter.mp hp).1
    have hps : p <+: s := List.isPrefixOf_iff_prefix.mp (List.mem_filter.mp hp).2
    have hmax2 : ∀ q ∈ m.keys, q <+: s → q.length ≤ p.length := fun q hq hqs =>
      hmax q (List.mem_filter.mpr ⟨hq, List.isPrefixOf_iff_prefix.mpr hqs⟩)
    rw [GetProxyLoop_longest m s ks1 h1.2 p (h1.1.mem_iff.mpr hpk) hps
        (fun q hq => hmax2 q (h1.1.mem_iff.mp hq)),
      GetProxyLoop_longest m s ks2 h2.2 p (h2.1.mem_iff.mpr hpk) hps
        (fun q hq => hmax2 q (h2.1.mem_iff.mp hq))]
  · have hn : ∀ ks, IsSortedKeys m ks → GetProxyLoop m s ks = none := fun ks hks =>
      (GetProxyLoop_none m s ks (fun k hk => hks.1.mem_iff.mp hk)).mpr
        (fun q hq hqs => hex ⟨q, hks.1.mem_iff.mp hq, hqs⟩)
    rw [hn ks1 h1, hn ks2 h2]


/-! ## Effect of `CreateRoute` -/

theorem CreateRoute_of_parse_error (env : Env) (g : Management) (d : Disk) (route : Route)
    (e : GoError) (h : env.urlParse route.Target = .error e) :
    CreateRoute env g d route = { g := g, disk := d, err := .returned (some e) } := by
  unfold CreateRoute
  rw [h]

/-- On the nil map `CreateRoute` panics and changes nothing. -/
theorem CreateRoute_of_nil_map (env : Env) (g : Management) (d : Disk) (route : Route)
    (u : URL) (h : env.urlParse route.Target = .ok u) (hg : g.pathTargetMapNil = true) :
    CreateRoute env g d route = { g := g, disk := d, err := .panicked } := by
  unfold CreateRoute
  rw [h]
  simp only []
  rw [if_pos hg]

theorem CreateRoute_of_parse_ok (env : Env) (g : Management) (d : Disk) (route : Route)
    (u : URL) (h : env.urlParse route.Target = .ok u) (hg : g.pathTargetMapNil = false) :
    CreateRoute env g d route =
      { g := insertRoute g route u
        disk := (savePathTargetMapTo d (env.filepathJoin g.State.GetRuntimePath RoutesFile)
          (g.pathTargetMap.insert route.Path route.Target)).1
        err := .returned
          (savePathTargetMapTo d (env.filepathJoin g.State.GetRuntimePath RoutesFile)
            (g.pathTargetMap.insert route.Path route.Target)).2 } := by
  unfold CreateRoute
  rw [h]
  simp only [insertRoute]
  rw [if_neg (by rw [hg]; simp)]
  split <;> rename_i heq <;> simp [heq]

/-- No call of `CreateRoute` changes whether `pathTargetMap` is nil. -/
theorem CreateRoute_pathTargetMapNil (env : Env) (g : Management) (d : Disk) (route : Route) :
    (CreateRoute env g d route).g.pathTargetMapNil = g.pathTargetMapNil := by
  cases h : env.urlParse route.Target with
  | error e => rw [CreateRoute_of_parse_error env g d route e h]
  | ok u =>
    cases hg : g.pathTargetMapNil with
    | true => rw [CreateRoute_of_nil_map env g d route u h hg]; exact hg
    | false => rw [CreateRoute_of_parse_ok env g d route u h hg]; exact hg

/-- The keys of the handler mapping after a sequence of `CreateRoute` calls:
those it had, and the paths of the routes whose target parsed, when
`pathTargetMap` is allocated. -/
theorem createRoutes_handler_keys (env : Env) (k : GoString) :
    ∀ (routes : List Route) (g : Management) (d : Disk), g.pathTargetMapNil = false →
      (k ∈ (createRoutes env g d routes).1.pathReverseProxyMap.keys ↔
        k ∈ g.pathReverseProxyMap.keys ∨
          ∃ r ∈ routes, r.Path = k ∧ ∃ u, env.urlParse r.Target = .ok u) := by
  intro routes
  induction routes with
  | nil => intro g d _; simp [createRoutes]
  | cons r rs ih =>
    intro g d hg
    simp only [createRoutes]
    rw [ih _ _ (by rw [CreateRoute_pathTargetMapNil]; exact hg)]
    cases h : env.urlParse r.Target with
    | error e =>
      rw [CreateRoute_of_parse_error env g d r e h]
      constructor
      · rintro (h1 | ⟨r1, hr1, hp, hu⟩)
        · exact Or.inl h1
        · exact Or.inr ⟨r1, List.mem_cons_of_mem _ hr1, hp, hu⟩
      · rintro (h1 | ⟨r1, hr1, hp, u, hu⟩)
        · exact Or.inl h1
        · rcases List.mem_cons.mp hr1 with h2 | h2
          · rw [h2, h] at hu; cases hu
          · exact Or.inr ⟨r1, h2, hp, u, hu⟩
    | ok u =>
      rw [CreateRoute_of_parse_ok env g d r u h hg]
      simp only [insertRoute]
      rw [← AList.mem_keys, AList.mem_insert, AList.mem_keys]
      constructor
      · rintro ((h1 | h1) | ⟨r1, hr1, hp, hu⟩)
        · exact Or.inr ⟨r, List.mem_cons_self _ _, h1.symm, u, h⟩
        · exact Or.inl h1
        · exact Or.inr ⟨r1, List.mem_cons_of_mem _ hr1, hp, hu⟩
      · rintro (h1 | ⟨r1, hr1, hp, hu⟩)
        · exact Or.inl (Or.inr h1)
        · rcases List.mem_cons.mp hr1 with h2 | h2
          · rw [h2] at hp; exact Or.inl (Or.inl hp.symm)
          · exact Or.inr ⟨r1, h2, hp, hu⟩

/-- C1. Longest-prefix dispatch.  For the table built from the empty table by any
sequence of `CreateRoute` calls and every request path `s`: (0) the registered
keys, the keys of the handler mapping, are the paths of the routes created
with a target that parses; (1) whichever list of keys `getSortedKeys` returns
(any order of ranging over the map, any placement of keys of equal length),
the loop of `GetProxy` gives the same answer; (2) if `p` is a registered key
that is a prefix of `s` and no registered key that is a prefix of `s` is
longer, `GetProxy s` is the handler stored under `p`, and it is not nil;
(3) `GetProxy s` is nil exactly when no registered key is a prefix of `s`.
(4) After `/a -> http://x` and then `/ab -> http://y`, with targets that
parse, `GetProxy "/abc"` is the handler of `/ab`, `GetProxy "/az"` the
handler of `/a`, and `GetProxy "/z"` is nil. -/
theorem GetProxy_longest_match (env : Env) (state : State) (d : Disk) (routes : List Route)
    (s : GoString) :
    (∀ p, p ∈ (createRoutes env (emptyManagement state) d routes).1.pathReverseProxyMap.keys ↔
        ∃ r ∈ routes, r.Path = p ∧ ∃ u, env.urlParse r.Target = .ok u) ∧
    (∀ keys,
        IsSortedKeys (createRoutes env (emptyManagement state) d routes).1.pathReverseProxyMap keys →
        GetProxyLoop (createRoutes env (emptyManagement state) d routes).1.pathReverseProxyMap
          s keys = GetProxy (createRoutes env (emptyManagement state) d routes).1 s) ∧
    (∀ p, p ∈ (createRoutes env (emptyManagement state) d routes).1.pathReverseProxyMap.keys →
        p <+: s →
        (∀ q ∈ (createRoutes env (emptyManagement state) d routes).1.pathReverseProxyMap.keys,
          q <+: s → q.length ≤ p.length) →
        ∃ h, (createRoutes env (emptyManagement state) d routes).1.pathReverseProxyMap.lookup p
            = some h ∧
          GetProxy (createRoutes env (emptyManagement state) d routes).1 s = some h) ∧
    (GetProxy (createRoutes env (emptyManagement state) d routes).1 s = none ↔
      ∀ q ∈ (createRoutes env (emptyManagement state) d routes).1.pathReverseProxyMap.keys,
        ¬ q <+: s) ∧
    (∀ ux uy, env.urlParse (ascii "http://x") = .ok ux → env.urlParse (ascii "http://y") = .ok uy →
      GetProxy (createRoutes env (emptyManagement state) d
          [⟨ascii "/a", ascii "http://x"⟩, ⟨ascii "/ab", ascii "http://y"⟩]).1 (ascii "/abc")
        = some (NewSingleHostReverseProxy uy) ∧
      GetProxy (createRoutes env (emptyManagement state) d
          [⟨ascii "/a", ascii "http://x"⟩, ⟨ascii "/ab", ascii "http://y"⟩]).1 (ascii "/az")
        = some (NewSingleHostReverseProxy ux) ∧
      GetProxy (createRoutes env (emptyManagement state) d
          [⟨ascii "/a", ascii "http://x"⟩, ⟨ascii "/ab", ascii "http://y"⟩]).1 (ascii "/z")
        = none) := by
  refine ⟨?_, ?_, ?_, ?_, ?_⟩
  · intro p
    rw [createRoutes_handler_keys env p routes (emptyManagement state) d rfl]
    constructor
    · rintro (h | h)
      · exact absurd h (List.not_mem_nil _)
      · exact h
    · exact Or.inr
  · intro keys hkeys
    exact GetProxyLoop_order_irrelevant _ s keys _ hkeys (getSortedKeys_isSortedKeys _)
  · intro p hp hps hmax
    obtain ⟨h, hh⟩ := lookup_isSome_of_mem_keys _ hp
    refine ⟨h, hh, ?_⟩
    have hsk := getSortedKeys_isSortedKeys
      (createRoutes env (emptyManagement state) d routes).1.pathReverseProxyMap
    unfold GetProxy
    rw [GetProxyLoop_longest _ s _ hsk.2 p (hsk.1.mem_iff.mpr hp) hps
      (fun q hq => hmax q (hsk.1.mem_iff.mp hq)), hh]
  · have hsk := getSortedKeys_isSortedKeys
      (createRoutes env (emptyManagement state) d routes).1.pathReverseProxyMap
    unfold GetProxy
    rw [GetProxyLoop_none _ s _ (fun k hk => hsk.1.mem_iff.mp hk)]
    constructor
    · intro h q hq; exact h q (hsk.1.mem_iff.mpr hq)
    · intro h q hq; exact h q (hsk.1.mem_iff.mp hq)
  · intro ux uy hx hy
    have e1 := CreateRoute_of_parse_ok env (emptyManagement state) d
      ⟨ascii "/a", ascii "http://x"⟩ ux hx rfl
    simp only [createRoutes]
    rw [e1]
    simp only []
    rw [CreateRoute_of_parse_ok env _ _ ⟨ascii "/ab", ascii "http://y"⟩ uy hy rfl]
    simp only []
    refine ⟨?_, ?_, ?_⟩ <;> rfl

/-- C1, at a concrete input: the scenario with the sample parser. -/
theorem GetProxy_longest_match_witness :
    GetProxy (createRoutes scenarioEnv (emptyManagement scenarioState) emptyDisk
        [⟨ascii "/a", ascii "http://x"⟩, ⟨ascii "/ab", ascii "http://y"⟩]).1 (ascii "/abc")
      = some (NewSingleHostReverseProxy ⟨ascii "http", ascii "y", []⟩) ∧
    GetProxy (createRoutes scenarioEnv (emptyManagement scenarioState) emptyDisk
        [⟨ascii "/a", ascii "http://x"⟩, ⟨ascii "/ab", ascii "http://y"⟩]).1 (ascii "/az")
      = some (NewSingleHostReverseProxy ⟨ascii "http", ascii "x", []⟩) ∧
    GetProxy (createRoutes scenarioEnv (emptyManagement scenarioState) emptyDisk
        [⟨ascii "/a", ascii "http://x"⟩, ⟨ascii "/ab", ascii "http://y"⟩]).1 (ascii "/z")
      = none :=
  (GetProxy_longest_match scenarioEnv scenarioState emptyDisk [] []).2.2.2.2
    ⟨ascii "http", ascii "x", []⟩ ⟨ascii "http", ascii "y", []⟩ rfl rfl


/-! ## The nil map -/

/-- Input that makes `json.Unmarshal` leave the map nil is accepted without
error and yields no entries. -/
theorem jsonUnmarshal_of_jsonIsNull (content : GoString) (h : jsonIsNull content = true) :
    jsonUnmarshal content = some ∅ := by
  unfold jsonIsNull at h
  unfold jsonUnmarshal
  match hs : skipSpace content, h with
  | n :: u :: l1 :: l2 :: rest1, h =>
    simp only [Bool.and_eq_true, decide_eq_true_eq] at h
    obtain ⟨⟨hn, hu, hl1, hl2⟩, hr⟩ := h
    simp only []
    rw [if_neg (by omega), if_pos ⟨hn, hu, hl1, hl2, hr⟩]

/-- The table `NewManagementService` returns has no entries in `pathTargetMap`
when that map is nil. -/
theorem NewManagementService_nil_map_is_empty (env : Env) (d : Disk) (state : State)
    (h : (NewManagementService env d state).pathTargetMapNil = true) :
    (NewManagementService env d state).pathTargetMap = ∅ := by
  unfold NewManagementService at h ⊢
  simp only [] at h ⊢
  unfold loadPathTargetMapFrom loadedMapIsNil at h
  unfold loadPathTargetMapFrom
  cases hr : osReadFile d (env.filepathJoin state.GetRuntimePath RoutesFile) with
  | error e => rw [hr] at h
  | ok content =>
    rw [hr] at h
    simp only [] at h ⊢
    cases hj : jsonIsNull content with
    | false =>
      rw [hj] at h
      cases hu : jsonUnmarshal content with
      | none => rw [hu] at h
      | some m => rw [hu] at h; simp at h
    | true =>
      rw [jsonUnmarshal_of_jsonIsNull content hj]

/-! ## Create and overwrite -/

theorem GetRoutes_paths (g : Management) :
    (GetRoutes g).map Route.Path = g.pathTargetMap.keys := by
  unfold GetRoutes AList.keys List.keys
  rw [List.map_map]
  rfl

theorem mem_GetRoutes_iff (g : Management) (p t : GoString) :
    (⟨p, t⟩ : Route) ∈ GetRoutes g ↔ g.pathTargetMap.lookup p = some t := by
  unfold GetRoutes
  rw [← Option.mem_def, AList.mem_lookup_iff, List.mem_map]
  constructor
  · rintro ⟨e, he, heq⟩
    obtain ⟨k, v⟩ := e
    simp only [Route.mk.injEq] at heq
    obtain ⟨h1, h2⟩ := heq
    subst h1; subst h2
    exact he
  · intro h
    exact ⟨⟨p, t⟩, h, rfl⟩

theorem keys_insert_length {V : Type} (m : GoMap V) (k : GoString) (v : V) :
    (m.insert k v).keys.length = if k ∈ m.keys then m.keys.length else m.keys.length + 1 := by
  rw [AList.keys_insert]
  by_cases h : k ∈ m.keys
  · rw [if_pos h, List.length_cons]
    have e := @List.length_erase_of_mem GoString instBEqOfDecidableEq _ k m.keys h
    have : 0 < m.keys.length := List.length_pos_of_mem h
    omega
  · rw [if_neg h, List.length_cons]
    have e := @List.erase_of_not_mem GoString instBEqOfDecidableEq _ k m.keys h
    rw [e]

/-- Create and overwrite on an allocated map.  When `pathTargetMap` is allocated
and the target of `route` parses, after
`CreateRoute` the `path -> target` mapping maps `route.Path` to
`route.Target`, every other path keeps the target (or absence) it had, and
whatever the order in which `GetRoutes` ranges over the map, its result holds
no path twice, holds `{p, t}` exactly when the mapping maps `p` to `t`, has as
many routes as the mapping has keys, and that number is the old one if
`route.Path` was registered and one more if it was new. -/
theorem CreateRoute_overwrites (env : Env) (g : Management) (d : Disk) (route : Route) (u : URL)
    (hg : g.pathTargetMapNil = false) (h : env.urlParse route.Target = .ok u) :
    (CreateRoute env g d route).g.pathTargetMap.lookup route.Path = some route.Target ∧
    (∀ p, p ≠ route.Path →
      (CreateRoute env g d route).g.pathTargetMap.lookup p = g.pathTargetMap.lookup p) ∧
    (∀ routes : List Route, routes.Perm (GetRoutes (CreateRoute env g d route).g) →
      (routes.map Route.Path).Nodup ∧
      (∀ p t, (⟨p, t⟩ : Route) ∈ routes ↔
        (CreateRoute env g d route).g.pathTargetMap.lookup p = some t) ∧
      routes.length = (CreateRoute env g d route).g.pathTargetMap.keys.length ∧
      routes.length =
        if route.Path ∈ g.pathTargetMap.keys then (GetRoutes g).length
        else (GetRoutes g).length + 1) := by
  rw [CreateRoute_of_parse_ok env g d route u h hg]
  simp only [insertRoute]
  refine ⟨AList.lookup_insert _, fun p hp => AList.lookup_insert_ne hp, ?_⟩
  intro routes hperm
  have hlen : ∀ g0 : Management, (GetRoutes g0).length = g0.pathTargetMap.keys.length := by
    intro g0
    rw [← GetRoutes_paths, List.length_map]
  refine ⟨?_, ?_, ?_, ?_⟩
  · have hp2 := hperm.map Route.Path
    rw [GetRoutes_paths] at hp2
    exact hp2.nodup_iff.mpr (AList.keys_nodup _)
  · intro p t
    rw [hperm.mem_iff, mem_GetRoutes_iff]
  · rw [hperm.length_eq, hlen]
  · rw [hperm.length_eq, hlen, hlen g]
    exact keys_insert_length _ _ _

/-- C2, the code at the failing input.  The routes file holds the JSON literal
`null`: `NewManagementService` returns a table whose `pathTargetMap` is the
nil map.  On that table `CreateRoute` with a target that parses panics at the
assignment to the map: it returns nothing, the mapping does not map the path
and `GetRoutes` stays empty.  On every table whose `pathTargetMap` is
allocated, `CreateRoute` with a target that parses does what is asked: the
mapping maps `route.Path` to `route.Target`, every other path keeps what it
had, and `GetRoutes`, in any order, holds one route per key, one more than
before exactly when the path is new. -/
theorem CreateRoute_panics_on_nil_map :
    (NewManagementService scenarioEnv nullDisk scenarioState).pathTargetMapNil = true ∧
    scenarioEnv.urlParse (ascii "http://x") = .ok ⟨ascii "http", ascii "x", []⟩ ∧
    (CreateRoute scenarioEnv (NewManagementService scenarioEnv nullDisk scenarioState) nullDisk
        ⟨ascii "/a", ascii "http://x"⟩).err = .panicked ∧
    (CreateRoute scenarioEnv (NewManagementService scenarioEnv nullDisk scenarioState) nullDisk
        ⟨ascii "/a", ascii "http://x"⟩).g.pathTargetMap.lookup (ascii "/a") = none ∧
    GetRoutes (CreateRoute scenarioEnv (NewManagementService scenarioEnv nullDisk scenarioState)
        nullDisk ⟨ascii "/a", ascii "http://x"⟩).g = [] ∧
    (∀ (env : Env) (g : Management) (d : Disk) (route : Route) (u : URL),
      g.pathTargetMapNil = false → env.urlParse route.Target = .ok u →
      (CreateRoute env g d route).g.pathTargetMap.lookup route.Path = some route.Target ∧
      (∀ p, p ≠ route.Path →
        (CreateRoute env g d route).g.pathTargetMap.lookup p = g.pathTargetMap.lookup p) ∧
      (∀ routes : List Route, routes.Perm (GetRoutes (CreateRoute env g d route).g) →
        (routes.map Route.Path).Nodup ∧
        (∀ p t, (⟨p, t⟩ : Route) ∈ routes ↔
          (CreateRoute env g d route).g.pathTargetMap.lookup p = some t) ∧
        routes.length = (CreateRoute env g d route).g.pathTargetMap.keys.length ∧
        routes.length =
          if route.Path ∈ g.pathTargetMap.keys then (GetRoutes g).length
          else (GetRoutes g).length + 1)) := by
  refine ⟨by decide, rfl, by decide, by decide, by decide, ?_⟩
  intro env g d route u hg h
  exact CreateRoute_overwrites env g d route u hg h

/-! ## Persistence failure -/

/-- C4, as amended.  `CreateRoute` validates the target with `url.Parse` and
with nothing else: when `url.Parse` rejects the target with `e`, `CreateRoute`
returns `e` and leaves the table and the file system as they were; when
`url.Parse` accepts the target, whether or not the URL it yields is absolute,
and `pathTargetMap` is allocated, the route is inserted in both mappings. -/
theorem CreateRoute_target_validation (env : Env) (g : Management) (d : Disk) (route : Route) :
    (∀ e, env.urlParse route.Target = .error e →
      (CreateRoute env g d route).err = .returned (some e) ∧
      (CreateRoute env g d route).g.pathTargetMap = g.pathTargetMap ∧
      (CreateRoute env g d route).g.pathReverseProxyMap = g.pathReverseProxyMap ∧
      (CreateRoute env g d route).disk.files = d.files) ∧
    (∀ u, env.urlParse route.Target = .ok u → g.pathTargetMapNil = false →
      (CreateRoute env g d route).g.pathTargetMap.lookup route.Path = some route.Target ∧
      (CreateRoute env g d route).g.pathReverseProxyMap.lookup route.Path
        = some (NewSingleHostReverseProxy u)) := by
  constructor
  · intro e he
    rw [CreateRoute_of_parse_error env g d route e he]
    exact ⟨rfl, rfl, rfl, rfl⟩
  · intro u hu hg
    rw [CreateRoute_of_parse_ok env g d route u hu hg]
    exact ⟨AList.lookup_insert _, AList.lookup_insert _⟩

/-- C4 as amended, at concrete inputs: the target `:`, which `url.Parse`
rejects, and the target `http://x`, which it accepts, on the empty table. -/
theorem CreateRoute_target_validation_witness :
    scenarioEnv.urlParse (ascii ":") = .error ⟨"parse: missing protocol scheme"⟩ ∧
    (CreateRoute scenarioEnv (emptyManagement scenarioState) emptyDisk
        ⟨ascii "/p", ascii ":"⟩).err = .returned (some ⟨"parse: missing protocol scheme"⟩) ∧
    (CreateRoute scenarioEnv (emptyManagement scenarioState) emptyDisk
        ⟨ascii "/p", ascii ":"⟩).g.pathTargetMap = (emptyManagement scenarioState).pathTargetMap ∧
    scenarioEnv.urlParse (ascii "http://x") = .ok ⟨ascii "http", ascii "x", []⟩ ∧
    (emptyManagement scenarioState).pathTargetMapNil = false ∧
    (CreateRoute scenarioEnv (emptyManagement scenarioState) emptyDisk
        ⟨ascii "/p", ascii "http://x"⟩).g.pathTargetMap.lookup (ascii "/p")
      = some (ascii "http://x") :=
  ⟨rfl,
    ((CreateRoute_target_validation scenarioEnv (emptyManagement scenarioState) emptyDisk
      ⟨ascii "/p", ascii ":"⟩).1 _ rfl).1,
    ((CreateRoute_target_validation scenarioEnv (emptyManagement scenarioState) emptyDisk
      ⟨ascii "/p", ascii ":"⟩).1 _ rfl).2.1,
    rfl, rfl,
    ((CreateRoute_target_validation scenarioEnv (emptyManagement scenarioState) emptyDisk
      ⟨ascii "/p", ascii "http://x"⟩).2 ⟨ascii "http", ascii "x", []⟩ rfl rfl).1⟩

/-- C4, as stated, fails.  The empty string and `foo/bar` are not absolute URLs
(`url.Parse` yields a URL without scheme and host for each), yet `CreateRoute`
returns nil for them and inserts the route in both mappings. -/
theorem CreateRoute_accepts_relative_target :
    scenarioEnv.urlParse [] = .ok ⟨[], [], []⟩ ∧
    URL.IsAbs ⟨[], [], []⟩ = false ∧
    (CreateRoute scenarioEnv (emptyManagement scenarioState) emptyDisk ⟨ascii "/p", []⟩).err
      = .returned none ∧
    (CreateRoute scenarioEnv (emptyManagement scenarioState) emptyDisk
        ⟨ascii "/p", []⟩).g.pathTargetMap.lookup (ascii "/p") = some [] ∧
    (CreateRoute scenarioEnv (emptyManagement scenarioState) emptyDisk
        ⟨ascii "/p", []⟩).g.pathReverseProxyMap.lookup (ascii "/p")
      = some (NewSingleHostReverseProxy ⟨[], [], []⟩) ∧
    scenarioEnv.urlParse (ascii "foo/bar") = .ok ⟨[], [], ascii "foo/bar"⟩ ∧
    URL.IsAbs ⟨[], [], ascii "foo/bar"⟩ = false ∧
    (CreateRoute scenarioEnv (emptyManagement scenarioState) emptyDisk
        ⟨ascii "/p", ascii "foo/bar"⟩).err = .returned none ∧
    (CreateRoute scenarioEnv (emptyManagement scenarioState) emptyDisk
        ⟨ascii "/p", ascii "foo/bar"⟩).g.pathTargetMap.lookup (ascii "/p")
      = some (ascii "foo/bar") := by
  refine ⟨rfl, rfl, ?_, ?_, ?_, rfl, rfl, ?_, ?_⟩
  · rw [CreateRoute_of_parse_ok scenarioEnv _ _ ⟨ascii "/p", []⟩ ⟨[], [], []⟩ rfl rfl]; rfl
  · rw [CreateRoute_of_parse_ok scenarioEnv _ _ ⟨ascii "/p", []⟩ ⟨[], [], []⟩ rfl rfl]; rfl
  · rw [CreateRoute_of_parse_ok scenarioEnv _ _ ⟨ascii "/p", []⟩ ⟨[], [], []⟩ rfl rfl]; rfl
  · rw [CreateRoute_of_parse_ok scenarioEnv _ _ ⟨ascii "/p", ascii "foo/bar"⟩
      ⟨[], [], ascii "foo/bar"⟩ rfl rfl]; rfl
  · rw [CreateRoute_of_parse_ok scenarioEnv _ _ ⟨ascii "/p", ascii "foo/bar"⟩
      ⟨[], [], ascii "foo/bar"⟩ rfl rfl]; rfl

/-! ## The two mappings -/

theorem addProxy_keys (env : Env) (acc : GoMap ReverseProxy) (e : Σ _ : GoString, GoString)
    (k : GoString) :
    k ∈ (addProxy env acc e).keys ↔
      k ∈ acc.keys ∨ (k = e.1 ∧ ∃ u, env.urlParse e.2 = .ok u) := by
  unfold addProxy
  cases h : env.urlParse e.2 with
  | error err => simp
  | ok u =>
    simp only [← AList.mem_keys, AList.mem_insert]
    constructor
    · rintro (h1 | h1)
      · exact Or.inr ⟨h1, u, rfl⟩
      · exact Or.inl h1
    · rintro (h1 | ⟨h1, _⟩)
      · exact Or.inr h1
      · exact Or.inl h1

theorem foldl_addProxy_keys (env : Env) (k : GoString) :
    ∀ (l : List (Σ _ : GoString, GoString)) (acc : GoMap ReverseProxy),
      k ∈ (l.foldl (addProxy env) acc).keys ↔
        k ∈ acc.keys ∨ ∃ t, (⟨k, t⟩ : Σ _ : GoString, GoString) ∈ l ∧
          ∃ u, env.urlParse t = .ok u := by
  intro l
  induction l with
  | nil => intro acc; simp
  | cons e l ih =>
    intro acc
    rw [List.foldl_cons, ih, addProxy_keys]
    constructor
    · rintro ((h | ⟨h1, h2⟩) | ⟨t, ht, hu⟩)
      · exact Or.inl h
      · refine Or.inr ⟨e.2, ?_, h2⟩
        rw [h1]
        exact List.mem_cons_self _ _
      · exact Or.inr ⟨t, List.mem_cons_of_mem _ ht, hu⟩
    · rintro (h | ⟨t, ht, hu⟩)
      · exact Or.inl (Or.inl h)
      · rcases List.mem_cons.mp ht with h | h
        · refine Or.inl (Or.inr ⟨?_, ?_⟩)
          · rw [← h]
          · rw [← h]; exact hu
        · exact Or.inr ⟨t, h, hu⟩

theorem NewManagementService_handlers (env : Env) (d : Disk) (state : State) :
    HandlersFollowTargets env (NewManagementService env d state) := by
  intro k
  unfold NewManagementService
  simp only []
  rw [foldl_addProxy_keys]
  constructor
  · rintro (h | ⟨t, ht, u, hu⟩)
    · exact absurd h (List.not_mem_nil _)
    · exact ⟨t, u, Option.mem_def.mp (AList.mem_lookup_iff.mpr ht), hu⟩
  · rintro ⟨t, u, ht, hu⟩
    exact Or.inr ⟨t, AList.mem_lookup_iff.mp (Option.mem_def.mpr ht), u, hu⟩

theorem CreateRoute_preserves_handlers (env : Env) (g : Management) (d : Disk) (route : Route)
    (hg : HandlersFollowTargets env g) :
    HandlersFollowTargets env (CreateRoute env g d route).g := by
  cases h : env.urlParse route.Target with
  | error e => rw [CreateRoute_of_parse_error env g d route e h]; exact hg
  | ok u =>
    cases hn : g.pathTargetMapNil with
    | true => rw [CreateRoute_of_nil_map env g d route u h hn]; exact hg
    | false =>
    rw [CreateRoute_of_parse_ok env g d route u h hn]
    intro k
    simp only [insertRoute]
    by_cases hk : k = route.Path
    · subst hk
      constructor
      · intro _
        exact ⟨route.Target, u, AList.lookup_insert _, h⟩
      · intro _
        rw [← AList.mem_keys, AList.mem_insert]
        exact Or.inl rfl
    · rw [AList.lookup_insert_ne hk, ← hg k, ← AList.mem_keys, ← AList.mem_keys,
        AList.mem_insert]
      constructor
      · rintro (h1 | h1)
        · exact absurd h1 hk
        · exact h1
      · exact Or.inr

theorem CreateRoute_preserves_parse (env : Env) (g : Management) (d : Disk) (route : Route)
    (hg : AllTargetsParse env g) : AllTargetsParse env (CreateRoute env g d route).g := by
  cases h : env.urlParse route.Target with
  | error e => rw [CreateRoute_of_parse_error env g d route e h]; exact hg
  | ok u =>
    cases hn : g.pathTargetMapNil with
    | true => rw [CreateRoute_of_nil_map env g d route u h hn]; exact hg
    | false =>
    rw [CreateRoute_of_parse_ok env g d route u h hn]
    intro k t
    simp only [insertRoute]
    by_cases hk : k = route.Path
    · subst hk
      rw [AList.lookup_insert]
      intro ht
      cases ht
      exact ⟨u, h⟩
    · rw [AList.lookup_insert_ne hk]
      exact hg k t

theorem createRoutes_preserves (env : Env) (P : Management → Prop)
    (hP : ∀ g d route, P g → P (CreateRoute env g d route).g) :
    ∀ (routes : List Route) (g : Management) (d : Disk), P g →
      P (createRoutes env g d routes).1 := by
  intro routes
  induction routes with
  | nil => intro g d hg; exact hg
  | cons r rs ih =>
    intro g d hg
    simp only [createRoutes]
    exact ih _ _ (hP g d r hg)

/-- C3, as amended.  In every state reached from `NewManagementService` (on any
file system, hence any persisted content or none) by any sequence of
`CreateRoute` calls: (1) the handler mapping holds a key exactly when the
target mapping maps it to a target that `url.Parse` accepts; (2) so every key
of the handler mapping is a key of the target mapping; (3) and when every
target loaded at start-up parses (in particular when the file is missing or
unreadable and the table starts empty), the two key sets are identical. -/
theorem key_sets_of_reachable_state (env : Env) (d d1 : Disk) (state : State)
    (routes : List Route) :
    (∀ k, k ∈ (createRoutes env (NewManagementService env d state) d1
          routes).1.pathReverseProxyMap.keys ↔
        ∃ t u, (createRoutes env (NewManagementService env d state) d1
            routes).1.pathTargetMap.lookup k = some t ∧ env.urlParse t = .ok u) ∧
    (∀ k, k ∈ (createRoutes env (NewManagementService env d state) d1
          routes).1.pathReverseProxyMap.keys →
        k ∈ (createRoutes env (NewManagementService env d state) d1
          routes).1.pathTargetMap.keys) ∧
    ((∀ k t, (NewManagementService env d state).pathTargetMap.lookup k = some t →
        ∃ u, env.urlParse t = .ok u) →
      ∀ k, k ∈ (createRoutes env (NewManagementService env d state) d1
            routes).1.pathReverseProxyMap.keys ↔
          k ∈ (createRoutes env (NewManagementService env d state) d1
            routes).1.pathTargetMap.keys) := by
  have h1 : HandlersFollowTargets env
      (createRoutes env (NewManagementService env d state) d1 routes).1 :=
    createRoutes_preserves env (HandlersFollowTargets env)
      (fun g d0 r hg => CreateRoute_preserves_handlers env g d0 r hg) routes _ d1
      (NewManagementService_handlers env d state)
  have sub : ∀ k, k ∈ (createRoutes env (NewManagementService env d state) d1
        routes).1.pathReverseProxyMap.keys →
      k ∈ (createRoutes env (NewManagementService env d state) d1
        routes).1.pathTargetMap.keys := by
    intro k hk
    obtain ⟨t, u, ht, _⟩ := (h1 k).mp hk
    exact AList.mem_keys.mp (AList.lookup_isSome.mp (by rw [ht]; rfl))
  refine ⟨h1, sub, ?_⟩
  intro hall k
  have h2 : AllTargetsParse env
      (createRoutes env (NewManagementService env d state) d1 routes).1 :=
    createRoutes_preserves env (AllTargetsParse env)
      (fun g d0 r hg => CreateRoute_preserves_parse env g d0 r hg) routes _ d1 hall
  constructor
  · exact sub k
  · intro hk
    obtain ⟨t, ht⟩ := lookup_isSome_of_mem_keys _ hk
    obtain ⟨u, hu⟩ := h2 k t ht
    exact (h1 k).mpr ⟨t, u, ht, hu⟩


/-- C3 as amended, at a concrete input: start-up without a routes file, then one
route whose target parses and one whose target does not. -/
theorem key_sets_of_reachable_state_witness :
    ∀ k, k ∈ (createRoutes scenarioEnv (NewManagementService scenarioEnv emptyDisk scenarioState)
          emptyDisk [⟨ascii "/a", ascii "http://x"⟩, ⟨ascii "/p", ascii ":"⟩]
          ).1.pathReverseProxyMap.keys ↔
      k ∈ (createRoutes scenarioEnv (NewManagementService scenarioEnv emptyDisk scenarioState)
          emptyDisk [⟨ascii "/a", ascii "http://x"⟩, ⟨ascii "/p", ascii ":"⟩]
          ).1.pathTargetMap.keys :=
  (key_sets_of_reachable_state scenarioEnv emptyDisk emptyDisk scenarioState
    [⟨ascii "/a", ascii "http://x"⟩, ⟨ascii "/p", ascii ":"⟩]).2.2
    (fun k t h => by
      simp [NewManagementService, loadPathTargetMapFrom, osReadFile, emptyDisk] at h)

/-- C3, as stated, fails.  When the routes file holds the object that maps
`/x` to `:` (a target `url.Parse` rejects), the table `NewManagementService`
returns has the key `/x` in `pathTargetMap` and no key in
`pathReverseProxyMap`. -/
theorem NewManagementService_key_sets_differ :
    (NewManagementService scenarioEnv staleDisk scenarioState).pathTargetMap.keys
      = [ascii "/x"] ∧
    (NewManagementService scenarioEnv staleDisk scenarioState).pathTargetMap.lookup (ascii "/x")
      = some (ascii ":") ∧
    (NewManagementService scenarioEnv staleDisk scenarioState).pathReverseProxyMap.keys = [] := by
  decide


/-! ## Idempotence and the serialized content -/

theorem entries_perm_of_lookup_eq (m1 m2 : TargetMap) (h : ∀ k, m1.lookup k = m2.lookup k) :
    m1.entries.Perm m2.entries := by
  apply List.lookup_ext m1.nodupKeys m2.nodupKeys
  intro x y
  have hx := h x
  unfold AList.lookup at hx
  rw [hx]

theorem sortedPairs_strict (m : TargetMap) :
    (sortedPairs m).Pairwise (fun a b => a.1 < b.1) := by
  have hs : List.Sorted (fun a b : GoString × GoString => a.1 ≤ b.1) (sortedPairs m) := by
    haveI : IsTotal (GoString × GoString) (fun a b => a.1 ≤ b.1) := ⟨fun a b => le_total a.1 b.1⟩
    haveI : IsTrans (GoString × GoString) (fun a b => a.1 ≤ b.1) :=
      ⟨fun a b c hab hbc => le_trans hab hbc⟩
    exact List.sorted_insertionSort _ _
  have hperm : (sortedPairs m).Perm (m.entries.map (fun e => (e.1, e.2))) :=
    List.perm_insertionSort _ _
  have hkeys : ((sortedPairs m).map Prod.fst).Nodup := by
    have hp2 := hperm.map Prod.fst
    rw [List.map_map] at hp2
    exact hp2.nodup_iff.mpr m.keys_nodup
  have hne : (sortedPairs m).Pairwise (fun a b => a.1 ≠ b.1) := by
    unfold List.Nodup at hkeys
    rw [List.pairwise_map] at hkeys
    exact hkeys
  exact (hs.and hne).imp (fun {a b} hab => lt_of_le_of_ne hab.1 hab.2)

/-- The pairs `encoding/json` writes depend on the mapping alone, not on the
order of its entries. -/
theorem sortedPairs_congr (m1 m2 : TargetMap) (h : ∀ k, m1.lookup k = m2.lookup k) :
    sortedPairs m1 = sortedPairs m2 := by
  have hperm : (sortedPairs m1).Perm (sortedPairs m2) := by
    unfold sortedPairs
    exact ((List.perm_insertionSort _ _).trans
      ((entries_perm_of_lookup_eq m1 m2 h).map _)).trans (List.perm_insertionSort _ _).symm
  haveI : IsAntisymm (GoString × GoString) (fun a b => a.1 < b.1) :=
    ⟨fun a b hab hba => absurd hab (lt_asymm hba)⟩
  exact List.eq_of_perm_of_sorted hperm (sortedPairs_strict m1) (sortedPairs_strict m2)

theorem jsonMarshal_congr (m1 m2 : TargetMap) (h : ∀ k, m1.lookup k = m2.lookup k) :
    jsonMarshal m1 = jsonMarshal m2 := by
  unfold jsonMarshal
  rw [sortedPairs_congr m1 m2 h]

/-- C6. Idempotence of `CreateRoute`.  When the target of `route` parses, a
second `CreateRoute route` right after the first leaves the `path -> target`
mapping and the keys of the handler mapping as the first call left them, and
hands `os.WriteFile` the same content; so after either call, if it returned
nil (its write succeeded), the routes file holds that one content.  The
content is a function of the mapping alone: two maps with the same lookups,
whatever the order of their entries, serialize to the same bytes.  (On the
nil map both calls panic and change nothing.) -/
theorem CreateRoute_idempotent (env : Env) (g : Management) (d : Disk) (route : Route) (u : URL)
    (h : env.urlParse route.Target = .ok u) :
    (CreateRoute env (CreateRoute env g d route).g (CreateRoute env g d route).disk
        route).g.pathTargetMap = (CreateRoute env g d route).g.pathTargetMap ∧
    (CreateRoute env (CreateRoute env g d route).g (CreateRoute env g d route).disk
        route).g.pathReverseProxyMap.keys = (CreateRoute env g d route).g.pathReverseProxyMap.keys ∧
    jsonMarshal (CreateRoute env (CreateRoute env g d route).g (CreateRoute env g d route).disk
        route).g.pathTargetMap = jsonMarshal (CreateRoute env g d route).g.pathTargetMap ∧
    ((CreateRoute env g d route).err = .returned none →
      (CreateRoute env g d route).disk.files
          (env.filepathJoin g.State.GetRuntimePath RoutesFile)
        = some (jsonMarshal (CreateRoute env g d route).g.pathTargetMap)) ∧
    ((CreateRoute env (CreateRoute env g d route).g (CreateRoute env g d route).disk
        route).err = .returned none →
      (CreateRoute env (CreateRoute env g d route).g (CreateRoute env g d route).disk
          route).disk.files (env.filepathJoin g.State.GetRuntimePath RoutesFile)
        = some (jsonMarshal (CreateRoute env g d route).g.pathTargetMap)) ∧
    (∀ m1 m2 : TargetMap, (∀ k, m1.lookup k = m2.lookup k) → jsonMarshal m1 = jsonMarshal m2) := by
  cases hn : g.pathTargetMapNil with
  | true =>
    have e1 := CreateRoute_of_nil_map env g d route u h hn
    have e2 : CreateRoute env (CreateRoute env g d route).g (CreateRoute env g d route).disk
        route = { g := g, disk := d, err := .panicked } := by
      rw [e1]
      exact e1
    rw [e2, e1]
    refine ⟨rfl, rfl, rfl, ?_, ?_, jsonMarshal_congr⟩
    · intro hc; cases hc
    · intro hc; cases hc
  | false =>
    have hn2 : (CreateRoute env g d route).g.pathTargetMapNil = false := by
      rw [CreateRoute_pathTargetMapNil]; exact hn
    have e1 := CreateRoute_of_parse_ok env g d route u h hn
    have e2 := CreateRoute_of_parse_ok env (CreateRoute env g d route).g
      (CreateRoute env g d route).disk route u h hn2
    have hT : (CreateRoute env (CreateRoute env g d route).g (CreateRoute env g d route).disk
        route).g.pathTargetMap = (CreateRoute env g d route).g.pathTargetMap := by
      rw [e2]
      simp only [insertRoute]
      rw [e1]
      simp only [insertRoute]
      exact AList.insert_insert _
    have hS : (CreateRoute env g d route).g.State = g.State := by rw [e1]; rfl
    have write_ok : ∀ (d0 : Disk) (name data : GoString),
        (Outcome.returned (osWriteFile d0 name data).2 : Outcome (Option GoError))
          = .returned none →
        (osWriteFile d0 name data).1.files name = some data := by
      intro d0 name data
      unfold osWriteFile
      cases d0.writeError d0.writes name with
      | some e => intro hc; injection hc with hc; cases hc
      | none => intro _; simp
    refine ⟨hT, ?_, by rw [hT], ?_, ?_, jsonMarshal_congr⟩
    · rw [e2]
      simp only [insertRoute]
      rw [e1]
      simp only [insertRoute]
      rw [AList.insert_insert]
    · rw [e1]
      simp only [insertRoute, savePathTargetMapTo]
      exact write_ok _ _ _
    · intro herr
      have e2g : (CreateRoute env (CreateRoute env g d route).g (CreateRoute env g d route).disk
          route).g.pathTargetMap
          = (CreateRoute env g d route).g.pathTargetMap.insert route.Path route.Target := by
        rw [e2]; rfl
      rw [← hT, e2g]
      rw [e2] at herr ⊢
      simp only [savePathTargetMapTo] at herr ⊢
      rw [hS] at herr ⊢
      exact write_ok _ _ _ herr

/-- C6, at a concrete input: `/a -> http://x` created twice on an empty table. -/
theorem CreateRoute_idempotent_witness :
    scenarioEnv.urlParse (ascii "http://x") = .ok ⟨ascii "http", ascii "x", []⟩ ∧
    (CreateRoute scenarioEnv
        (CreateRoute scenarioEnv (emptyManagement scenarioState) emptyDisk
          ⟨ascii "/a", ascii "http://x"⟩).g
        (CreateRoute scenarioEnv (emptyManagement scenarioState) emptyDisk
          ⟨ascii "/a", ascii "http://x"⟩).disk
        ⟨ascii "/a", ascii "http://x"⟩).g.pathTargetMap
      = (CreateRoute scenarioEnv (emptyManagement scenarioState) emptyDisk
          ⟨ascii "/a", ascii "http://x"⟩).g.pathTargetMap :=
  ⟨rfl, (CreateRoute_idempotent scenarioEnv (emptyManagement scenarioState) emptyDisk
    ⟨ascii "/a", ascii "http://x"⟩ ⟨ascii "http", ascii "x", []⟩ rfl).1⟩

/-! ## The liveness check -/

/-- The loop of `checkURLWithRetry` never leaves through its condition, which
holds for every value of the unsigned counter: whatever it returns is nil or a
panic, never an error. -/
theorem checkURLWithRetryLoop_no_error (gets : Nat → GetResult) :
    ∀ (fuel i count : Nat) (err : Option GoError) (e : GoError),
      checkURLWithRetryLoop gets fuel i count err ≠ some (.returned (some e)) := by
  intro fuel
  induction fuel with
  | zero => intro i count err e h; cases h
  | succ n ih =>
    intro i count err e
    unfold checkURLWithRetryLoop
    rw [if_pos (Nat.zero_le count)]
    cases hc : checkURL (gets i) with
    | panicked => intro h; cases h
    | returned r =>
      cases r with
      | none => intro h; cases h
      | some e1 => exact ih _ _ _ _

/-- While `checkURL` returns an error the loop goes on, from any value of the
counter.  (`checkURL` returns an error only for a response with status 200
that came together with an error.) -/
theorem checkURLWithRetryLoop_all_errors (gets : Nat → GetResult)
    (hall : ∀ i, ∃ e, checkURL (gets i) = .returned (some e)) :
    ∀ (fuel i count : Nat) (err : Option GoError),
      checkURLWithRetryLoop gets fuel i count err = none := by
  intro fuel
  induction fuel with
  | zero => intro i count err; rfl
  | succ n ih =>
    intro i count err
    obtain ⟨e, he⟩ := hall i
    unfold checkURLWithRetryLoop
    rw [if_pos (Nat.zero_le count), he]
    exact ih _ _ _

/-- The first attempt at which `checkURL` returns nil ends the loop with nil,
provided `checkURL` returned an error at every attempt before it. -/
theorem checkURLWithRetryLoop_first_nil (gets : Nat → GetResult) :
    ∀ (k fuel i count : Nat) (err : Option GoError),
      (∀ j, j < k → ∃ e, checkURL (gets (i + j)) = .returned (some e)) →
      checkURL (gets (i + k)) = .returned none → k < fuel →
      checkURLWithRetryLoop gets fuel i count err = some (.returned none) := by
  intro k
  induction k with
  | zero =>
    intro fuel i count err _ hk hf
    obtain ⟨n, rfl⟩ : ∃ n, fuel = n + 1 := ⟨fuel - 1, by omega⟩
    unfold checkURLWithRetryLoop
    rw [if_pos (Nat.zero_le count)]
    rw [Nat.add_zero] at hk
    rw [hk]
  | succ k ih =>
    intro fuel i count err hbefore hk hf
    obtain ⟨n, rfl⟩ : ∃ n, fuel = n + 1 := ⟨fuel - 1, by omega⟩
    obtain ⟨e, he⟩ := hbefore 0 (Nat.succ_pos k)
    rw [Nat.add_zero] at he
    unfold checkURLWithRetryLoop
    rw [if_pos (Nat.zero_le count), he]
    apply ih
    · intro j hj
      have := hbefore (j + 1) (by omega)
      rw [show i + 1 + j = i + (j + 1) by omega]
      exact this
    · rw [show i + 1 + k = i + (k + 1) by omega]
      exact hk
    · omega

/-- A first request that completes without error, whatever its status, ends
`checkURLWithRetry` with nil at the first attempt; a first request that fails
in transport makes it panic at the first attempt. -/
theorem checkURLWithRetry_first_attempt (gets : Nat → GetResult) (retry fuel : Nat) :
    ((gets 0).err = none → checkURLWithRetry gets retry (fuel + 1) = some (.returned none)) ∧
    ((gets 0).err ≠ none → (gets 0).response = none →
      checkURLWithRetry gets retry (fuel + 1) = some .panicked) := by
  unfold checkURLWithRetry checkURLWithRetryLoop
  rw [if_pos (Nat.zero_le _)]
  constructor
  · intro h
    unfold checkURL
    rw [h]
  · intro h1 h2
    unfold checkURL
    rw [h2]
    cases he : (gets 0).err with
    | none => exact absurd he h1
    | some e => rfl

/-- C10, the code at the failing inputs.  A request that completes with status
500 (or with any status at all) makes `checkURL` return nil; a request that
fails in transport makes it panic; the only error it ever returns is
`ErrCheckURLNotOK`, and only for a response with status 200 that came with
an error. -/
theorem checkURL_inverted :
    checkURL ⟨some ⟨500⟩, none⟩ = .returned none ∧
    (∀ status, checkURL ⟨some ⟨status⟩, none⟩ = .returned none) ∧
    checkURL ⟨none, some ⟨"connection refused"⟩⟩ = .panicked ∧
    checkURL ⟨some ⟨200⟩, some ⟨"redirect refused"⟩⟩ = .returned (some ErrCheckURLNotOK) ∧
    (∀ get e, checkURL get = .returned (some e) →
      get.err ≠ none ∧ get.response = some ⟨200⟩ ∧ e = ErrCheckURLNotOK) := by
  refine ⟨rfl, fun _ => rfl, rfl, rfl, ?_⟩
  intro get e h
  obtain ⟨resp, err⟩ := get
  unfold checkURL at h
  cases err with
  | none => cases h
  | some e1 =>
    cases resp with
    | none => cases h
    | some r =>
      obtain ⟨code⟩ := r
      simp only [] at h
      by_cases hc : code = StatusOK
      · rw [if_pos hc] at h
        injection h with h1
        injection h1 with h2
        exact ⟨by simp, by rw [hc]; rfl, h2.symm⟩
      · rw [if_neg hc] at h
        cases h

/-- C9, the code at the failing inputs.  (1) When every liveness request fails
in transport, `checkURLWithRetry(url, 10)` panics at the first attempt; (2)
when every liveness request completes with status 500, it returns nil at the
first attempt.  In neither case are ten attempts made or an error returned.
(3) Whatever the liveness requests return, no run of `checkURLWithRetry`
returns a non-nil error: the condition `count >= 0` holds for every value of
the unsigned counter, so the loop is left only through `break`, with `err`
nil. -/
theorem checkURLWithRetry_never_reports_failure :
    (∀ fuel, checkURLWithRetry getsRefused 10 (fuel + 1) = some .panicked) ∧
    (∀ fuel, checkURLWithRetry getsStatus500 10 (fuel + 1) = some (.returned none)) ∧
    (∀ (gets : Nat → GetResult) (retry fuel : Nat) (e : GoError),
      checkURLWithRetry gets retry fuel ≠ some (.returned (some e))) := by
  refine ⟨fun fuel => rfl, fun fuel => rfl, ?_⟩
  intro gets retry fuel e
  exact checkURLWithRetryLoop_no_error gets _ _ _ _ _

/-! ## The reload of the gateway -/

/-- What `reloadGateway` does with a candidate that is not healthy, the gateway
serving on `:80` and port 8080 being free.  If every liveness request fails in
transport the call panics at the first attempt, the candidate listener open
and served.  If every liveness request completes with status 500 the call
returns nil and the candidate is promoted. -/
theorem reloadGateway_unhealthy_candidate :
    (∀ fuel, reloadGateway listenOnly8080 getsRefused servingOn80 (ascii "8080") (fuel + 1)
      = some (.panicked,
          { gateway := some ⟨ascii ":80"⟩
            listeners := [ascii ":8080", ascii ":80"]
            serving := [⟨ascii ":8080"⟩, ⟨ascii ":80"⟩]
            stopping := [] })) ∧
    (∀ fuel, reloadGateway listenOnly8080 getsStatus500 servingOn80 (ascii "8080") (fuel + 1)
      = some (.returned none,
          { gateway := some ⟨ascii ":8080"⟩
            listeners := [ascii ":8080", ascii ":80"]
            serving := [⟨ascii ":8080"⟩, ⟨ascii ":80"⟩]
            stopping := [⟨ascii ":80"⟩] })) := by
  exact ⟨fun fuel => rfl, fun fuel => rfl⟩

theorem ofNat_val (n : Nat) (h : n < 256) : (Fin.ofNat n : Byte).val = n := by
  simp [Fin.ofNat, Nat.mod_eq_of_lt h]

theorem ofNat_eq (n : Nat) (b : Byte) (h : n = b.val) : (Fin.ofNat n : Byte) = b := by
  apply Fin.ext
  rw [ofNat_val n (by rw [h]; exact b.isLt)]
  exact h

theorem inRange_iff (lo hi : Nat) (b : Byte) : inRange lo hi b = true ↔ lo ≤ b.val ∧ b.val ≤ hi := by
  simp [inRange]

/-- A well-formed multi-byte rune at the head of a string: the bytes that
encode it, all at least 0x80, are what `encodeRune` writes for it, and
`decodeRune` finds it again whatever follows. -/
theorem decodeRune_wellformed (b : Byte) (rest : GoString) (hb : 0x80 ≤ b.val)
    (hv : ¬ ((decodeRune (b :: rest)).1 = RuneError ∧ (decodeRune (b :: rest)).2 = 1)) :
    ∃ l t, b :: rest = l ++ t ∧ l.length = (decodeRune (b :: rest)).2 ∧
      encodeRune (decodeRune (b :: rest)).1 = l ∧ (∀ c ∈ l, 0x80 ≤ c.val) ∧
      0 < l.length ∧
      ∀ t1, decodeRune (l ++ t1) = decodeRune (b :: rest) := by
  have hb256 := b.isLt
  unfold decodeRune at hv ⊢
  simp only [] at hv ⊢
  rw [if_neg (by omega)] at hv ⊢
  by_cases h1 : b.val < 0xC2
  · rw [if_pos h1] at hv; exact absurd ⟨rfl, rfl⟩ hv
  rw [if_neg h1] at hv ⊢
  by_cases h2 : b.val < 0xE0
  · rw [if_pos h2] at hv ⊢
    cases rest with
    | nil => exact absurd ⟨rfl, rfl⟩ hv
    | cons b1 r =>
      simp only [] at hv ⊢
      by_cases hr : inRange 0x80 0xBF b1 = true
      · rw [if_pos hr] at hv ⊢
        rw [inRange_iff] at hr
        refine ⟨[b, b1], r, rfl, rfl, ?_, ?_, by simp, ?_⟩
        · unfold encodeRune
          rw [if_neg (by omega), if_pos (by omega)]
          rw [ofNat_eq _ b (by omega), ofNat_eq _ b1 (by omega)]
        · intro c hc
          simp only [List.mem_cons, List.mem_singleton, List.not_mem_nil, or_false] at hc
          rcases hc with rfl | rfl
          · exact hb
          · exact hr.1
        · intro t1
          simp only [List.cons_append, List.nil_append]
          rw [if_neg (by omega), if_neg h1, if_pos h2, if_pos ((inRange_iff _ _ _).mpr hr)]
      · rw [if_neg hr] at hv; exact absurd ⟨rfl, rfl⟩ hv
  rw [if_neg h2] at hv ⊢
  by_cases h3 : b.val < 0xF0
  · rw [if_pos h3] at hv ⊢
    match rest, hv with
    | [], hv => exact absurd ⟨rfl, rfl⟩ hv
    | [_], hv => exact absurd ⟨rfl, rfl⟩ hv
    | b1 :: b2 :: r, hv =>
      simp only [] at hv ⊢
      by_cases hr : (inRange (if b.val = 0xE0 then 0xA0 else 0x80)
          (if b.val = 0xED then 0x9F else 0xBF) b1 && inRange 0x80 0xBF b2) = true
      · rw [if_pos hr] at hv ⊢
        have hr0 := hr
        rw [Bool.and_eq_true, inRange_iff, inRange_iff] at hr
        obtain ⟨⟨hlo, hhi⟩, hr2⟩ := hr
        have hlo2 : 0x80 ≤ b1.val := by split_ifs at hlo <;> omega
        have hhi2 : b1.val ≤ 0xBF := by split_ifs at hhi <;> omega
        refine ⟨[b, b1, b2], r, rfl, rfl, ?_, ?_, by simp, ?_⟩
        · unfold encodeRune
          have hnot : ¬ (0x10FFFF < (b.val - 0xE0) * 4096 + (b1.val - 0x80) * 64 + (b2.val - 0x80) ∨
              (0xD800 ≤ (b.val - 0xE0) * 4096 + (b1.val - 0x80) * 64 + (b2.val - 0x80) ∧
               (b.val - 0xE0) * 4096 + (b1.val - 0x80) * 64 + (b2.val - 0x80) ≤ 0xDFFF)) := by
            split_ifs at hlo hhi <;> omega
          have hge : ¬ (b.val - 0xE0) * 4096 + (b1.val - 0x80) * 64 + (b2.val - 0x80) ≤ 0x7FF := by
            split_ifs at hlo hhi <;> omega
          rw [if_neg (by omega), if_neg hge, if_neg hnot, if_pos (by omega)]
          rw [ofNat_eq _ b (by omega), ofNat_eq _ b1 (by omega), ofNat_eq _ b2 (by omega)]
        · intro c hc
          simp only [List.mem_cons, List.mem_singleton, List.not_mem_nil, or_false] at hc
          rcases hc with rfl | rfl | rfl
          · exact hb
          · exact hlo2
          · exact hr2.1
        · intro t1
          simp only [List.cons_append, List.nil_append]
          rw [if_neg (by omega), if_neg h1, if_neg h2, if_pos h3, if_pos hr0]
      · rw [if_neg hr] at hv; exact absurd ⟨rfl, rfl⟩ hv
  rw [if_neg h3] at hv ⊢
  by_cases h4 : b.val < 0xF5
  · rw [if_pos h4] at hv ⊢
    match rest, hv with
    | [], hv => exact absurd ⟨rfl, rfl⟩ hv
    | [_], hv => exact absurd ⟨rfl, rfl⟩ hv
    | [_, _], hv => exact absurd ⟨rfl, rfl⟩ hv
    | b1 :: b2 :: b3 :: r, hv =>
      simp only [] at hv ⊢
      by_cases hr : (inRange (if b.val = 0xF0 then 0x90 else 0x80)
          (if b.val = 0xF4 then 0x8F else 0xBF) b1 && inRange 0x80 0xBF b2 &&
          inRange 0x80 0xBF b3) = true
      · rw [if_pos hr] at hv ⊢
        have hr0 := hr
        rw [Bool.and_eq_true, Bool.and_eq_true, inRange_iff, inRange_iff, inRange_iff] at hr
        obtain ⟨⟨⟨hlo, hhi⟩, hr2⟩, hr3⟩ := hr
        have hlo2 : 0x80 ≤ b1.val := by split_ifs at hlo <;> omega
        have hhi2 : b1.val ≤ 0xBF := by split_ifs at hhi <;> omega
        refine ⟨[b, b1, b2, b3], r, rfl, rfl, ?_, ?_, by simp, ?_⟩
        · unfold encodeRune
          have hnot : ¬ (0x10FFFF < (b.val - 0xF0) * 262144 + (b1.val - 0x80) * 4096 +
                (b2.val - 0x80) * 64 + (b3.val - 0x80) ∨
              (0xD800 ≤ (b.val - 0xF0) * 262144 + (b1.val - 0x80) * 4096 +
                (b2.val - 0x80) * 64 + (b3.val - 0x80) ∧
               (b.val - 0xF0) * 262144 + (b1.val - 0x80) * 4096 +
                (b2.val - 0x80) * 64 + (b3.val - 0x80) ≤ 0xDFFF)) := by
            split_ifs at hlo hhi <;> omega
          have hge : ¬ (b.val - 0xF0) * 262144 + (b1.val - 0x80) * 4096 +
                (b2.val - 0x80) * 64 + (b3.val - 0x80) ≤ 0xFFFF := by
            split_ifs at hlo hhi <;> omega
          rw [if_neg (by omega), if_neg (by omega), if_neg hnot, if_neg hge]
          rw [ofNat_eq _ b (by omega), ofNat_eq _ b1 (by omega), ofNat_eq _ b2 (by omega),
            ofNat_eq _ b3 (by omega)]
        · intro c hc
          simp only [List.mem_cons, List.mem_singleton, List.not_mem_nil, or_false] at hc
          rcases hc with rfl | rfl | rfl | rfl
          · exact hb
          · exact hlo2
          · exact hr2.1
          · exact hr3.1
        · intro t1
          simp only [List.cons_append, List.nil_append]
          rw [if_neg (by omega), if_neg h1, if_neg h2, if_neg h3, if_pos h4, if_pos hr0]
      · rw [if_neg hr] at hv; exact absurd ⟨rfl, rfl⟩ hv
  · rw [if_neg h4] at hv; exact absurd ⟨rfl, rfl⟩ hv

/-! ### String literals -/

theorem hexDigit_isHex (k : Nat) (hk : k < 16) :
    isHex (hexDigit k) = true ∧ hexVal (hexDigit k) = k := by
  interval_cases k <;> decide

theorem scanString_plain (c : Byte) (t : GoString) (h1 : c.val ≠ 0x22) (h2 : c.val ≠ 0x5C)
    (h3 : ¬ c.val < 0x20) :
    scanString (c :: t) = (scanString t).map (fun r => (c :: r.1, r.2)) := by
  conv_lhs => rw [scanString.eq_def]
  try simp only []
  rw [if_neg h1, if_neg h2, if_neg h3]

theorem scanString_plain_list (l : GoString)
    (hl : ∀ c ∈ l, c.val ≠ 0x22 ∧ c.val ≠ 0x5C ∧ ¬ c.val < 0x20) (t : GoString) :
    scanString (l ++ t) = (scanString t).map (fun r => (l ++ r.1, r.2)) := by
  induction l with
  | nil => simp
  | cons c l ih =>
    obtain ⟨h1, h2, h3⟩ := hl c (List.mem_cons_self _ _)
    rw [List.cons_append, scanString_plain c _ h1 h2 h3,
      ih (fun x hx => hl x (List.mem_cons_of_mem _ hx))]
    rw [Option.map_map]
    rfl

theorem scanString_simple_escape (e : Byte) (t : GoString)
    (he : e.val = 0x62 ∨ e.val = 0x66 ∨ e.val = 0x6E ∨ e.val = 0x72 ∨ e.val = 0x74 ∨
      e.val = 0x5C ∨ e.val = 0x2F ∨ e.val = 0x22) :
    scanString (0x5C :: e :: t) = (scanString t).map (fun r => (0x5C :: e :: r.1, r.2)) := by
  conv_lhs => rw [scanString.eq_def]
  try simp only []
  have hne : e.val ≠ 0x75 := by omega
  rw [if_neg (by decide), if_pos (by decide)]
  try simp only []
  rw [if_neg hne, if_pos he]

theorem scanString_u_escape (h1 h2 h3 h4 : Byte) (t : GoString)
    (hh : (isHex h1 && isHex h2 && isHex h3 && isHex h4) = true) :
    scanString (0x5C :: 0x75 :: h1 :: h2 :: h3 :: h4 :: t)
      = (scanString t).map (fun r => (0x5C :: 0x75 :: h1 :: h2 :: h3 :: h4 :: r.1, r.2)) := by
  conv_lhs => rw [scanString.eq_def]
  try simp only []
  rw [if_neg (by decide), if_pos (by decide)]
  try simp only []
  rw [if_pos (by decide)]
  try simp only []
  rw [if_pos hh]

set_option maxRecDepth 100000 in
theorem htmlSafe_false_cases :
    ∀ b : Byte, b.val < 0x80 → htmlSafe b = false →
      (b.val < 0x20 ∨ b.val = 0x22 ∨ b.val = 0x5C ∨ b.val = 0x3C ∨ b.val = 0x3E ∨ b.val = 0x26) := by
  decide

set_option maxRecDepth 100000 in
theorem htmlSafe_true_plain :
    ∀ b : Byte, htmlSafe b = true →
      (b.val ≠ 0x22 ∧ b.val ≠ 0x5C ∧ ¬ b.val < 0x20 ∧ b.val < 0x80) := by
  decide

theorem scanString_escapeByte (b : Byte) (t : GoString) (hb : b.val < 0x80)
    (hs : htmlSafe b = false) :
    scanString (escapeByte b ++ t) = (scanString t).map (fun r => (escapeByte b ++ r.1, r.2)) := by
  have hc := htmlSafe_false_cases b hb hs
  unfold escapeByte
  split_ifs with c1 c2 c3 c4 c5 c6
  · exact scanString_simple_escape b t (by omega)
  · exact scanString_simple_escape 0x62 t (by decide)
  · exact scanString_simple_escape 0x66 t (by decide)
  · exact scanString_simple_escape 0x6E t (by decide)
  · exact scanString_simple_escape 0x72 t (by decide)
  · exact scanString_simple_escape 0x74 t (by decide)
  · have k1 := hexDigit_isHex (b.val / 16) (by omega)
    have k2 := hexDigit_isHex (b.val % 16) (by omega)
    exact scanString_u_escape 0x30 0x30 _ _ t (by rw [k1.1, k2.1]; rfl)

theorem unquoteLoop_ascii (f : Nat) (c : Byte) (rest : GoString) (h1 : c.val ≠ 0x5C)
    (h2 : ¬ (c.val = 0x22 ∨ c.val < 0x20)) (h3 : c.val < 0x80) :
    unquoteLoop (f + 1) (c :: rest) = (unquoteLoop f rest).map (fun t => c :: t) := by
  conv_lhs => rw [unquoteLoop.eq_def]
  try simp only []
  rw [if_neg h1, if_neg h2, if_pos h3]

theorem unquoteLoop_rune (f : Nat) (c : Byte) (rest : GoString) (h : 0x80 ≤ c.val) :
    unquoteLoop (f + 1) (c :: rest)
      = (unquoteLoop f ((c :: rest).drop (decodeRune (c :: rest)).2)).map
          (fun t => encodeRune (decodeRune (c :: rest)).1 ++ t) := by
  conv_lhs => rw [unquoteLoop.eq_def]
  try simp only []
  rw [if_neg (by omega), if_neg (by omega), if_neg (by omega)]

theorem unquoteLoop_quote_escape (f : Nat) (e : Byte) (rest : GoString)
    (he : e.val = 0x22 ∨ e.val = 0x5C) :
    unquoteLoop (f + 1) (0x5C :: e :: rest) = (unquoteLoop f rest).map (fun t => e :: t) := by
  conv_lhs => rw [unquoteLoop.eq_def]
  try simp only []
  rw [if_pos (by decide)]
  try simp only []
  rw [if_pos (by omega)]

theorem unquoteLoop_u_escape (f : Nat) (h1 h2 h3 h4 : Byte) (rest : GoString)
    (hh : isHex h1 = true ∧ isHex h2 = true ∧ isHex h3 = true ∧ isHex h4 = true)
    (hs : ¬ (0xD800 ≤ hexVal h1 * 4096 + hexVal h2 * 256 + hexVal h3 * 16 + hexVal h4 ∧
      hexVal h1 * 4096 + hexVal h2 * 256 + hexVal h3 * 16 + hexVal h4 < 0xE000)) :
    unquoteLoop (f + 1) (0x5C :: 0x75 :: h1 :: h2 :: h3 :: h4 :: rest)
      = (unquoteLoop f rest).map
          (fun t => encodeRune (hexVal h1 * 4096 + hexVal h2 * 256 + hexVal h3 * 16 + hexVal h4)
            ++ t) := by
  conv_lhs => rw [unquoteLoop.eq_def]
  try simp only []
  rw [if_pos (by decide)]
  try simp only []
  rw [if_neg (by decide), if_neg (by decide), if_neg (by decide), if_neg (by decide),
    if_neg (by decide), if_neg (by decide), if_pos (by decide)]
  have hg : getu4 (0x5C :: 0x75 :: h1 :: h2 :: h3 :: h4 :: rest)
      = some (hexVal h1 * 4096 + hexVal h2 * 256 + hexVal h3 * 16 + hexVal h4) := by
    rw [getu4.eq_def]
    try simp only []
    rw [if_pos ⟨by decide, by decide, hh⟩]
  rw [hg]
  try simp only []
  rw [if_neg hs]
  try rfl

theorem unquoteLoop_escapeByte (f : Nat) (b : Byte) (rest : GoString) (hb : b.val < 0x80)
    (hs : htmlSafe b = false) :
    unquoteLoop (f + 1) (escapeByte b ++ rest) = (unquoteLoop f rest).map (fun t => b :: t) := by
  have hc := htmlSafe_false_cases b hb hs
  have simple : ∀ (e v : Byte),
      e.val = 0x62 ∧ v.val = 0x08 ∨ e.val = 0x66 ∧ v.val = 0x0C ∨ e.val = 0x6E ∧ v.val = 0x0A ∨
        e.val = 0x72 ∧ v.val = 0x0D ∨ e.val = 0x74 ∧ v.val = 0x09 →
      unquoteLoop (f + 1) (0x5C :: e :: rest) = (unquoteLoop f rest).map (fun t => v :: t) := by
    intro e v hev
    conv_lhs => rw [unquoteLoop.eq_def]
    try simp only []
    rw [if_pos (by decide)]
    try simp only []
    rw [if_neg (by omega)]
    rcases hev with ⟨h1, h2⟩ | ⟨h1, h2⟩ | ⟨h1, h2⟩ | ⟨h1, h2⟩ | ⟨h1, h2⟩
    · rw [if_pos h1]
      have : v = 0x08 := Fin.ext h2
      rw [this]
    · rw [if_neg (by omega), if_pos h1]
      have : v = 0x0C := Fin.ext h2
      rw [this]
    · rw [if_neg (by omega), if_neg (by omega), if_pos h1]
      have : v = 0x0A := Fin.ext h2
      rw [this]
    · rw [if_neg (by omega), if_neg (by omega), if_neg (by omega), if_pos h1]
      have : v = 0x0D := Fin.ext h2
      rw [this]
    · rw [if_neg (by omega), if_neg (by omega), if_neg (by omega), if_neg (by omega), if_pos h1]
      have : v = 0x09 := Fin.ext h2
      rw [this]
  unfold escapeByte
  split_ifs with c1 c2 c3 c4 c5 c6
  · exact unquoteLoop_quote_escape f b rest (by omega)
  · exact simple 0x62 b (Or.inl ⟨rfl, c2⟩)
  · exact simple 0x66 b (Or.inr (Or.inl ⟨rfl, c3⟩))
  · exact simple 0x6E b (Or.inr (Or.inr (Or.inl ⟨rfl, c4⟩)))
  · exact simple 0x72 b (Or.inr (Or.inr (Or.inr (Or.inl ⟨rfl, c5⟩))))
  · exact simple 0x74 b (Or.inr (Or.inr (Or.inr (Or.inr ⟨rfl, c6⟩))))
  · have k1 := hexDigit_isHex (b.val / 16) (by omega)
    have k2 := hexDigit_isHex (b.val % 16) (by omega)
    have hv0 : hexVal (0x30 : Byte) = 0 := by decide
    have hval : hexVal (0x30 : Byte) * 4096 + hexVal (0x30 : Byte) * 256 +
        hexVal (hexDigit (b.val / 16)) * 16 + hexVal (hexDigit (b.val % 16)) = b.val := by
      rw [k1.2, k2.2, hv0]; omega
    have := unquoteLoop_u_escape f 0x30 0x30 (hexDigit (b.val / 16)) (hexDigit (b.val % 16)) rest
      ⟨by decide, by decide, k1.1, k2.1⟩ (by rw [hval]; omega)
    rw [hval] at this
    simp only [List.cons_append, List.nil_append]
    rw [this]
    have henc : encodeRune b.val = [b] := by
      unfold encodeRune
      rw [if_pos (by omega), ofNat_eq _ b rfl]
    rw [henc]
    rfl

theorem decodeRune_ascii (b : Byte) (rest : GoString) (hb : b.val < 0x80) :
    decodeRune (b :: rest) = (b.val, 1) := by
  rw [decodeRune.eq_def]
  simp only []
  rw [if_pos hb]

theorem validUTF8Loop_ascii (n : Nat) (b : Byte) (rest : GoString) (hb : b.val < 0x80)
    (hv : validUTF8Loop (n + 1) (b :: rest) = true) : validUTF8Loop n rest = true := by
  rw [validUTF8Loop.eq_def] at hv
  simp only [] at hv
  rw [decodeRune_ascii b rest hb] at hv
  simp only [] at hv
  rw [if_neg (by unfold RuneError; omega)] at hv
  exact hv

/-- A well-formed string that starts with a byte of a multi-byte rune splits
into the bytes of that rune and a well-formed remainder. -/
theorem validUTF8Loop_rune (n : Nat) (b : Byte) (rest : GoString) (hb : 0x80 ≤ b.val)
    (hv : validUTF8Loop (n + 1) (b :: rest) = true) :
    ¬ ((decodeRune (b :: rest)).1 = RuneError ∧ (decodeRune (b :: rest)).2 = 1) ∧
    ∃ l t, b :: rest = l ++ t ∧ l.length = (decodeRune (b :: rest)).2 ∧
      encodeRune (decodeRune (b :: rest)).1 = l ∧ (∀ c ∈ l, 0x80 ≤ c.val) ∧
      0 < l.length ∧ (∀ t1, decodeRune (l ++ t1) = decodeRune (b :: rest)) ∧
      (b :: rest).take (decodeRune (b :: rest)).2 = l ∧
      (b :: rest).drop (decodeRune (b :: rest)).2 = t ∧
      validUTF8Loop n t = true := by
  rw [validUTF8Loop.eq_def] at hv
  simp only [] at hv
  by_cases he : (decodeRune (b :: rest)).1 = RuneError ∧ (decodeRune (b :: rest)).2 = 1
  · rw [if_pos he] at hv; cases hv
  · rw [if_neg he] at hv
    refine ⟨he, ?_⟩
    obtain ⟨l, t, h1, h2, h3, h4, h5, h6⟩ := decodeRune_wellformed b rest hb he
    have hd : (b :: rest).drop (decodeRune (b :: rest)).2 = t := by
      have h2c := h2
      rw [h1] at h2c ⊢
      exact List.drop_left' h2c
    have ht : (b :: rest).take (decodeRune (b :: rest)).2 = l := by
      have h2c := h2
      rw [h1] at h2c ⊢
      exact List.take_left' h2c
    refine ⟨l, t, h1, h2, h3, h4, h5, h6, ht, hd, ?_⟩
    rw [← hd]
    exact hv

theorem appendStringLoop_ascii_safe (n : Nat) (b : Byte) (rest : GoString) (hb : b.val < 0x80)
    (hs : htmlSafe b = true) :
    appendStringLoop (n + 1) (b :: rest) = b :: appendStringLoop n rest := by
  rw [appendStringLoop.eq_def]
  simp only []
  rw [if_pos hb, if_pos hs]

theorem appendStringLoop_ascii_escape (n : Nat) (b : Byte) (rest : GoString) (hb : b.val < 0x80)
    (hs : htmlSafe b = false) :
    appendStringLoop (n + 1) (b :: rest) = escapeByte b ++ appendStringLoop n rest := by
  rw [appendStringLoop.eq_def]
  simp only []
  rw [if_pos hb, if_neg (by rw [hs]; simp)]

theorem appendStringLoop_rune (n : Nat) (b : Byte) (rest : GoString) (hb : 0x80 ≤ b.val)
    (he : ¬ ((decodeRune (b :: rest)).1 = RuneError ∧ (decodeRune (b :: rest)).2 = 1)) :
    appendStringLoop (n + 1) (b :: rest) =
      if (decodeRune (b :: rest)).1 = 0x2028 ∨ (decodeRune (b :: rest)).1 = 0x2029 then
        [0x5C, 0x75, 0x32, 0x30, 0x32, hexDigit ((decodeRune (b :: rest)).1 % 16)] ++
          appendStringLoop n ((b :: rest).drop (decodeRune (b :: rest)).2)
      else
        (b :: rest).take (decodeRune (b :: rest)).2 ++
          appendStringLoop n ((b :: rest).drop (decodeRune (b :: rest)).2) := by
  conv_lhs => rw [appendStringLoop.eq_def]
  simp only []
  rw [if_neg (by omega), if_neg he]

theorem escapeByte_length (b : Byte) : 0 < (escapeByte b).length := by
  unfold escapeByte
  split_ifs <;> simp

/-- The scanner reads the body `appendString` writes for a well-formed string
up to the closing quote. -/
theorem scanString_appendStringLoop (n : Nat) :
    ∀ s, validUTF8Loop n s = true → ∀ t,
      scanString (appendStringLoop n s ++ 0x22 :: t) = some (appendStringLoop n s, t) := by
  have hq : ∀ t : GoString, scanString (0x22 :: t) = some ([], t) := by
    intro t
    rw [scanString.eq_def]
    simp only []
    rw [if_pos (by decide)]
  induction n with
  | zero =>
    intro s _ t
    rw [appendStringLoop.eq_def]
    exact hq t
  | succ n ih =>
    intro s hv t
    cases s with
    | nil =>
      rw [appendStringLoop.eq_def]
      exact hq t
    | cons b rest =>
      by_cases hb : b.val < 0x80
      · have hv2 := validUTF8Loop_ascii n b rest hb hv
        by_cases hs : htmlSafe b = true
        · obtain ⟨p1, p2, p3, _⟩ := htmlSafe_true_plain b hs
          rw [appendStringLoop_ascii_safe n b rest hb hs, List.cons_append,
            scanString_plain b _ p1 p2 p3, ih rest hv2 t]
          rfl
        · have hs2 : htmlSafe b = false := by simpa using hs
          rw [appendStringLoop_ascii_escape n b rest hb hs2, List.append_assoc,
            scanString_escapeByte b _ hb hs2, ih rest hv2 t]
          rfl
      · have hb2 : 0x80 ≤ b.val := by omega
        obtain ⟨he, l, t0, h1, h2, h3, h4, h5, h6, htake, hdrop, hv2⟩ :=
          validUTF8Loop_rune n b rest hb2 hv
        rw [appendStringLoop_rune n b rest hb2 he, htake, hdrop]
        split_ifs with hu
        · have hk := hexDigit_isHex ((decodeRune (b :: rest)).1 % 16) (Nat.mod_lt _ (by decide))
          rw [List.append_assoc]
          simp only [List.cons_append, List.nil_append]
          rw [scanString_u_escape 0x32 0x30 0x32 _ _ (by rw [hk.1]; rfl), ih t0 hv2 t]
          rfl
        · rw [List.append_assoc, scanString_plain_list l
            (fun c hc => by have := h4 c hc; omega), ih t0 hv2 t]
          rfl

theorem unquoteLoop_nil (f : Nat) : unquoteLoop f [] = some [] := by
  cases f <;> rfl

/-- Unquoting the body `appendString` writes for a well-formed string gives the
string back. -/
theorem unquoteLoop_appendStringLoop (n : Nat) :
    ∀ s, validUTF8Loop n s = true → ∀ f, (appendStringLoop n s).length ≤ f →
      unquoteLoop f (appendStringLoop n s) = some s := by
  induction n with
  | zero =>
    intro s hv f _
    rw [validUTF8Loop.eq_def] at hv
    simp only [] at hv
    rw [List.isEmpty_iff] at hv
    rw [hv, appendStringLoop.eq_def]
    exact unquoteLoop_nil f
  | succ n ih =>
    intro s hv f hf
    cases s with
    | nil =>
      rw [appendStringLoop.eq_def]
      exact unquoteLoop_nil f
    | cons b rest =>
      by_cases hb : b.val < 0x80
      · have hv2 := validUTF8Loop_ascii n b rest hb hv
        by_cases hs : htmlSafe b = true
        · obtain ⟨p1, p2, p3, p4⟩ := htmlSafe_true_plain b hs
          rw [appendStringLoop_ascii_safe n b rest hb hs] at hf ⊢
          rw [List.length_cons] at hf
          obtain ⟨f1, rfl⟩ : ∃ f1, f = f1 + 1 := ⟨f - 1, by omega⟩
          rw [unquoteLoop_ascii f1 b _ p2 (by omega) p4, ih rest hv2 f1 (by omega)]
          rfl
        · have hs2 : htmlSafe b = false := by simpa using hs
          rw [appendStringLoop_ascii_escape n b rest hb hs2] at hf ⊢
          rw [List.length_append] at hf
          have hl := escapeByte_length b
          obtain ⟨f1, rfl⟩ : ∃ f1, f = f1 + 1 := ⟨f - 1, by omega⟩
          rw [unquoteLoop_escapeByte f1 b _ hb hs2, ih rest hv2 f1 (by omega)]
          rfl
      · have hb2 : 0x80 ≤ b.val := by omega
        obtain ⟨he, l, t0, h1, h2, h3, h4, h5, h6, htake, hdrop, hv2⟩ :=
          validUTF8Loop_rune n b rest hb2 hv
        rw [appendStringLoop_rune n b rest hb2 he, htake, hdrop] at hf ⊢
        split_ifs at hf ⊢ with hu
        · rw [List.length_append] at hf
          simp only [List.length_cons, List.length_nil] at hf
          obtain ⟨f1, rfl⟩ : ∃ f1, f = f1 + 1 := ⟨f - 1, by omega⟩
          have hk := hexDigit_isHex ((decodeRune (b :: rest)).1 % 16) (Nat.mod_lt _ (by decide))
          have h32 : hexVal (0x32 : Byte) = 2 := by decide
          have h30 : hexVal (0x30 : Byte) = 0 := by decide
          have hval : hexVal (0x32 : Byte) * 4096 + hexVal (0x30 : Byte) * 256 +
              hexVal (0x32 : Byte) * 16 + hexVal (hexDigit ((decodeRune (b :: rest)).1 % 16))
              = (decodeRune (b :: rest)).1 := by
            rw [hk.2, h32, h30]; omega
          have hstep := unquoteLoop_u_escape f1 0x32 0x30 0x32
            (hexDigit ((decodeRune (b :: rest)).1 % 16)) (appendStringLoop n t0)
            ⟨by decide, by decide, by decide, hk.1⟩ (by rw [hval]; omega)
          rw [hval] at hstep
          simp only [List.cons_append, List.nil_append]
          rw [hstep, ih t0 hv2 f1 (by omega), h3, h1]
          rfl
        · rw [List.length_append] at hf
          obtain ⟨f1, rfl⟩ : ∃ f1, f = f1 + 1 := ⟨f - 1, by omega⟩
          cases l with
          | nil => simp at h5
          | cons c l1 =>
            have hc : c = b := by
              have := congrArg List.head? h1
              simp only [List.head?_cons, List.cons_append, Option.some.injEq] at this
              exact this.symm
            subst hc
            rw [List.cons_append, unquoteLoop_rune f1 c _ hb2]
            have hd := h6 (appendStringLoop n t0)
            rw [List.cons_append] at hd
            rw [hd, h3]
            have hdr : (c :: (l1 ++ appendStringLoop n t0)).drop (decodeRune (c :: rest)).2
                = appendStringLoop n t0 := by
              rw [← List.cons_append]
              exact List.drop_left' h2
            rw [hdr, ih t0 hv2 f1 (by simp only [List.length_cons] at hf; omega), h1]
            rfl

/-! ### Objects -/

theorem parseString_appendString (s t : GoString) (hv : validUTF8 s = true) :
    parseString (appendStringLoop s.length s ++ 0x22 :: t) = some (s, t) := by
  unfold parseString
  rw [scanString_appendStringLoop s.length s hv t]
  simp only []
  unfold unquote
  rw [unquoteLoop_appendStringLoop s.length s hv _ (Nat.le_refl _)]

theorem appendString_append (s t : GoString) :
    appendString s ++ t = 0x22 :: (appendStringLoop s.length s ++ 0x22 :: t) := by
  unfold appendString
  simp

theorem skipSpace_cons (c : Byte) (rest : GoString) (h : isSpace c = false) :
    skipSpace (c :: rest) = c :: rest := by
  rw [skipSpace.eq_def]
  simp only []
  rw [if_neg (by rw [h]; simp)]

/-- The bytes of one member, `"key":"value"`. -/
theorem parseMembers_member (fuel : Nat) (k v : GoString) (d : Byte) (tail : GoString)
    (acc : TargetMap) (hk : validUTF8 k = true) (hv : validUTF8 v = true) :
    parseMembers (fuel + 1) (appendString k ++ 0x3A :: (appendString v ++ d :: tail)) acc =
      if d.val = 0x7D then some (acc.insert k v, tail)
      else if d.val = 0x2C then parseMembers fuel tail (acc.insert k v)
      else
        match skipSpace (d :: tail) with
        | [] => none
        | d1 :: afterDelim =>
          if d1.val = 0x7D then some (acc.insert k v, afterDelim)
          else if d1.val = 0x2C then parseMembers fuel afterDelim (acc.insert k v)
          else none := by
  conv_lhs => rw [parseMembers.eq_def]
  simp only []
  rw [appendString_append k, skipSpace_cons _ _ (by decide)]
  simp only []
  rw [if_neg (by decide), parseString_appendString k _ hk]
  simp only []
  rw [skipSpace_cons _ _ (by decide)]
  simp only []
  rw [if_neg (by decide), appendString_append v, skipSpace_cons _ _ (by decide)]
  rw [parseMemberValue.eq_def]
  simp only []
  rw [if_pos (by decide), parseString_appendString v _ hv]
  simp only []
  by_cases h1 : d.val = 0x7D
  · rw [if_pos h1, skipSpace_cons d tail (by
      unfold isSpace; simp only [h1]; decide)]
    simp only []
    rw [if_pos h1]
  · rw [if_neg h1]
    by_cases h2 : d.val = 0x2C
    · rw [if_pos h2, skipSpace_cons d tail (by
        unfold isSpace; simp only [h2]; decide)]
      simp only []
      rw [if_neg h1, if_pos h2]
    · rw [if_neg h2]

theorem joinMembers_cons_cons (kv kv2 : GoString × GoString) (kvs : List (GoString × GoString)) :
    joinMembers (kv :: kv2 :: kvs) =
      appendString kv.1 ++ 0x3A :: appendString kv.2 ++ 0x2C :: joinMembers (kv2 :: kvs) := by
  rw [joinMembers.eq_def]

theorem parseMembers_joinMembers :
    ∀ (l : List (GoString × GoString)), l ≠ [] →
      (∀ kv ∈ l, validUTF8 kv.1 = true ∧ validUTF8 kv.2 = true) →
      ∀ (fuel : Nat), l.length ≤ fuel → ∀ (acc : TargetMap) (tail : GoString),
        parseMembers fuel (joinMembers l ++ 0x7D :: tail) acc
          = some (insertPairs acc l, tail) := by
  intro l
  induction l with
  | nil => intro h; exact absurd rfl h
  | cons kv kvs ih =>
    intro _ hvalid fuel hfuel acc tail
    obtain ⟨hk, hv⟩ := hvalid kv (List.mem_cons_self _ _)
    obtain ⟨f1, rfl⟩ : ∃ f1, fuel = f1 + 1 := ⟨fuel - 1, by
      simp only [List.length_cons] at hfuel; omega⟩
    cases kvs with
    | nil =>
      have e : joinMembers [kv] ++ 0x7D :: tail
          = appendString kv.1 ++ 0x3A :: (appendString kv.2 ++ 0x7D :: tail) := by
        rw [joinMembers.eq_def]
        simp
      rw [e, parseMembers_member f1 kv.1 kv.2 0x7D tail acc hk hv, if_pos (by decide)]
      rfl
    | cons kv2 kvs2 =>
      have e : joinMembers (kv :: kv2 :: kvs2) ++ 0x7D :: tail
          = appendString kv.1 ++ 0x3A ::
              (appendString kv.2 ++ 0x2C :: (joinMembers (kv2 :: kvs2) ++ 0x7D :: tail)) := by
        rw [joinMembers_cons_cons]
        simp
      rw [e, parseMembers_member f1 kv.1 kv.2 0x2C _ acc hk hv, if_neg (by decide),
        if_pos (by decide)]
      rw [ih (List.cons_ne_nil _ _) (fun x hx => hvalid x (List.mem_cons_of_mem _ hx)) f1
        (by simp only [List.length_cons] at hfuel ⊢; omega)]
      rfl

theorem joinMembers_length (l : List (GoString × GoString)) :
    l.length ≤ (joinMembers l).length := by
  induction l with
  | nil => simp [joinMembers]
  | cons kv kvs ih =>
    cases kvs with
    | nil =>
      rw [joinMembers.eq_def]
      simp [appendString]
    | cons kv2 kvs2 =>
      rw [joinMembers_cons_cons]
      simp only [List.length_append, List.length_cons] at ih ⊢
      omega

theorem joinMembers_head (kv : GoString × GoString) (kvs : List (GoString × GoString)) :
    ∃ r, joinMembers (kv :: kvs) = 0x22 :: r := by
  cases kvs with
  | nil =>
    rw [joinMembers.eq_def]
    simp only []
    exact ⟨_, appendString_append kv.1 _⟩
  | cons kv2 kvs2 =>
    rw [joinMembers_cons_cons, List.append_assoc]
    exact ⟨_, appendString_append kv.1 _⟩

/-- Decoding what `json.Marshal` writes for pairs of well-formed strings
yields the map with those pairs inserted in order. -/
theorem jsonUnmarshal_object (l : List (GoString × GoString))
    (hvalid : ∀ kv ∈ l, validUTF8 kv.1 = true ∧ validUTF8 kv.2 = true) :
    jsonUnmarshal (0x7B :: (joinMembers l ++ [0x7D])) = some (insertPairs ∅ l) := by
  unfold jsonUnmarshal
  rw [skipSpace_cons _ _ (by decide)]
  simp only []
  rw [if_pos (by decide)]
  cases l with
  | nil =>
    have e : joinMembers ([] : List (GoString × GoString)) ++ [0x7D] = [0x7D] := by
      rw [joinMembers.eq_def]; rfl
    rw [e, skipSpace_cons _ _ (by decide)]
    simp only []
    rw [if_pos (by decide)]
    rfl
  | cons kv kvs =>
    obtain ⟨r, hr⟩ := joinMembers_head kv kvs
    have hlen := joinMembers_length (kv :: kvs)
    have hp := parseMembers_joinMembers (kv :: kvs) (List.cons_ne_nil _ _) hvalid
      (0x7B :: (joinMembers (kv :: kvs) ++ [0x7D])).length
      (by simp only [List.length_cons, List.length_append] at hlen ⊢; omega) ∅ []
    rw [hr] at hp ⊢
    rw [List.cons_append] at hp ⊢
    rw [skipSpace_cons _ _ (by decide)]
    simp only []
    rw [if_neg (by decide), hp]
    rfl

/-! ### Maps -/

theorem insertPairs_lookup_of_not_mem (k : GoString) :
    ∀ (l : List (GoString × GoString)) (acc : TargetMap), k ∉ l.map Prod.fst →
      (insertPairs acc l).lookup k = acc.lookup k := by
  intro l
  induction l with
  | nil => intro acc _; rfl
  | cons kv kvs ih =>
    intro acc hk
    rw [List.map_cons, List.mem_cons, not_or] at hk
    unfold insertPairs
    rw [List.foldl_cons]
    have := ih (acc.insert kv.1 kv.2) hk.2
    unfold insertPairs at this
    rw [this, AList.lookup_insert_ne hk.1]

theorem insertPairs_lookup_of_mem (k v : GoString) :
    ∀ (l : List (GoString × GoString)) (acc : TargetMap), (l.map Prod.fst).Nodup →
      (k, v) ∈ l → (insertPairs acc l).lookup k = some v := by
  intro l
  induction l with
  | nil => intro acc _ h; cases h
  | cons kv kvs ih =>
    intro acc hnd hmem
    rw [List.map_cons, List.nodup_cons] at hnd
    rcases List.mem_cons.mp hmem with h | h
    · subst h
      have := insertPairs_lookup_of_not_mem k kvs (acc.insert k v) hnd.1
      unfold insertPairs at this ⊢
      rw [List.foldl_cons, this, AList.lookup_insert]
    · have := ih (acc.insert kv.1 kv.2) hnd.2 h
      unfold insertPairs at this ⊢
      rw [List.foldl_cons, this]

theorem mem_sortedPairs_iff (m : TargetMap) (k v : GoString) :
    (k, v) ∈ sortedPairs m ↔ m.lookup k = some v := by
  unfold sortedPairs
  rw [(List.perm_insertionSort _ _).mem_iff, ← Option.mem_def, AList.mem_lookup_iff,
    List.mem_map]
  constructor
  · rintro ⟨e, he, heq⟩
    obtain ⟨k1, v1⟩ := e
    simp only [Prod.mk.injEq] at heq
    obtain ⟨h1, h2⟩ := heq
    subst h1; subst h2
    exact he
  · intro h
    exact ⟨⟨k, v⟩, h, rfl⟩

theorem sortedPairs_keys_nodup (m : TargetMap) : ((sortedPairs m).map Prod.fst).Nodup := by
  have hperm : (sortedPairs m).Perm (m.entries.map (fun e => (e.1, e.2))) :=
    List.perm_insertionSort _ _
  have hp2 := hperm.map Prod.fst
  rw [List.map_map] at hp2
  exact hp2.nodup_iff.mpr m.keys_nodup

/-- What is read back from the bytes `json.Marshal` writes for a map of
well-formed strings has the lookups of that map. -/
theorem jsonUnmarshal_jsonMarshal (m : TargetMap)
    (hvalid : ∀ k v, m.lookup k = some v → validUTF8 k = true ∧ validUTF8 v = true) :
    ∃ m1, jsonUnmarshal (jsonMarshal m) = some m1 ∧ ∀ k, m1.lookup k = m.lookup k := by
  refine ⟨insertPairs ∅ (sortedPairs m), ?_, ?_⟩
  · unfold jsonMarshal
    exact jsonUnmarshal_object _
      (fun kv hkv => hvalid kv.1 kv.2 ((mem_sortedPairs_iff m kv.1 kv.2).mp hkv))
  · intro k
    cases h : m.lookup k with
    | none =>
      rw [insertPairs_lookup_of_not_mem k]
      · rfl
      · intro hk
        obtain ⟨kv, hkv, hfst⟩ := List.mem_map.mp hk
        have := (mem_sortedPairs_iff m kv.1 kv.2).mp hkv
        rw [hfst, h] at this
        cases this
    | some v =>
      exact insertPairs_lookup_of_mem k v _ ∅ (sortedPairs_keys_nodup m)
        ((mem_sortedPairs_iff m k v).mpr h)

/-- C5, as amended.  Persistence round trip for well-formed strings.  For every
`path -> target` mapping whose keys and values are well-formed UTF-8, and
every file system: if `savePathTargetMapTo` returns nil, then
`loadPathTargetMapFrom` on the same file returns, without error, a mapping
with the same keys and the same value for each key. -/
theorem save_then_load (d : Disk) (routesFilepath : GoString) (m : TargetMap)
    (hvalid : ∀ k v, m.lookup k = some v → validUTF8 k = true ∧ validUTF8 v = true)
    (hwrite : (savePathTargetMapTo d routesFilepath m).2 = none) :
    ∃ m1, loadPathTargetMapFrom (savePathTargetMapTo d routesFilepath m).1 routesFilepath
        = .ok m1 ∧
      ∀ k, m1.lookup k = m.lookup k := by
  obtain ⟨m1, h1, h2⟩ := jsonUnmarshal_jsonMarshal m hvalid
  refine ⟨m1, ?_, h2⟩
  unfold savePathTargetMapTo osWriteFile at hwrite ⊢
  cases hw : d.writeError d.writes routesFilepath with
  | some e => rw [hw] at hwrite; cases hwrite
  | none =>
    simp only []
    unfold loadPathTargetMapFrom osReadFile
    simp only [if_true]
    rw [h1]

/-- C5 as amended, at a concrete input: the mapping `/a -> http://x`, saved on
an empty file system and loaded again. -/
theorem save_then_load_witness :
    ∃ m1, loadPathTargetMapFrom
        (savePathTargetMapTo emptyDisk (ascii "/run/routes.json")
          ((∅ : TargetMap).insert (ascii "/a") (ascii "http://x"))).1 (ascii "/run/routes.json")
        = .ok m1 ∧
      ∀ k, m1.lookup k = ((∅ : TargetMap).insert (ascii "/a") (ascii "http://x")).lookup k :=
  save_then_load emptyDisk (ascii "/run/routes.json")
    ((∅ : TargetMap).insert (ascii "/a") (ascii "http://x"))
    (fun k v h => by
      by_cases hk : k = ascii "/a"
      · subst hk
        rw [AList.lookup_insert] at h
        injection h with h
        subst h
        exact ⟨by decide, by decide⟩
      · rw [AList.lookup_insert_ne hk] at h
        cases h)
    rfl

/-- C5, as stated, fails.  The mapping with the single key 0xFF (a byte that is
not well-formed UTF-8) is saved without error, and loading the file succeeds,
but the mapping that comes back has no key 0xFF: it has the key EF BF BD,
the encoding of U+FFFD, which `json.Marshal` wrote in place of the byte. -/
theorem save_then_load_ill_formed_key :
    illFormedKeyMap.lookup [0xFF] = some [] ∧
    (savePathTargetMapTo emptyDisk (ascii "/run/routes.json") illFormedKeyMap).2 = none ∧
    (savePathTargetMapTo emptyDisk (ascii "/run/routes.json") illFormedKeyMap).1.files
        (ascii "/run/routes.json")
      = some (ascii "\x7b\"\\ufffd\":\"\"\x7d") ∧
    (loadPathTargetMapFrom
        (savePathTargetMapTo emptyDisk (ascii "/run/routes.json") illFormedKeyMap).1
        (ascii "/run/routes.json")).toOption.map (fun m1 => m1.entries.map (fun e => (e.1, e.2)))
      = some [([0xEF, 0xBF, 0xBD], [])] := by
  decide

/-! ## Start-up: the scan of the ports -/

theorem sprintfD_ne_nil_of_mem : ∀ p ∈ portsToCheck, sprintfD p ≠ [] := by
  decide

/-- After a port has been tried the variable `port` is never empty again. -/
theorem scanPorts_ne_nil (probe : GoString → Except GoError GoString)
    (closeError : GoString → Option GoError) :
    ∀ (ps : List Nat) (port : GoString), (∀ p ∈ ps, sprintfD p ≠ []) →
      (port ≠ [] ∨ ps ≠ []) → scanPorts probe closeError ps port ≠ [] := by
  intro ps
  induction ps with
  | nil =>
    intro port _ h
    rcases h with h | h
    · exact h
    · exact absurd rfl h
  | cons p ps ih =>
    intro port hall _
    have hp : sprintfD p ≠ [] := hall p (List.mem_cons_self _ _)
    have hrest := ih (sprintfD p) (fun q hq => hall q (List.mem_cons_of_mem _ hq)) (Or.inl hp)
    rw [scanPorts.eq_def]
    simp only []
    cases probe (sprintfD p) with
    | error e => exact hrest
    | ok addr =>
      simp only []
      cases closeError (sprintfD p) with
      | none => exact hp
      | some e => exact hrest

/-- When no port of the list can be bound, the scan leaves in `port` the last
port it tried. -/
theorem scanPorts_all_busy (probe : GoString → Except GoError GoString)
    (closeError : GoString → Option GoError) :
    ∀ (ps : List Nat) (port : GoString), (∀ p ∈ ps, ∃ e, probe (sprintfD p) = .error e) →
      scanPorts probe closeError ps port = ((ps.map sprintfD).getLast?).getD port := by
  intro ps
  induction ps with
  | nil => intro port _; rfl
  | cons p ps ih =>
    intro port hall
    obtain ⟨e, he⟩ := hall p (List.mem_cons_self _ _)
    rw [scanPorts.eq_def]
    simp only []
    rw [he]
    simp only []
    rw [ih (sprintfD p) (fun q hq => hall q (List.mem_cons_of_mem _ hq))]
    cases ps with
    | nil => rfl
    | cons q qs =>
      simp only [List.map_cons, List.getLast?_cons_cons]
      rw [List.getLast?_eq_getLast _ (List.cons_ne_nil _ _)]
      rfl

/-- When port 85 is the only one that can be bound, the scan selects it. -/
theorem scanPorts_only_85 :
    scanPorts listenOnly85 (fun _ => none) portsToCheck [] = ascii "85" := by
  decide

/-- Whatever the start-up hook goes on to do after `SetGatewayPort` has been
called with `port`, the call is on record and the port is committed. -/
theorem gatewayOnStart_after_scan (probe : GoString → Except GoError GoString)
    (closeError notify : GoString → Option GoError)
    (netListen : GoString → Except GoError GoString) (gets : Nat → GetResult)
    (w : Startup) (fuel : Nat) (r : Outcome (Option GoError) × Startup)
    (hempty : w.state.GetGatewayPort = [])
    (hscan : scanPorts probe closeError portsToCheck [] ≠ [])
    (h : gatewayOnStart probe closeError notify netListen gets w fuel = some r) :
    r.2.setPortCalls = scanPorts probe closeError portsToCheck [] :: w.setPortCalls ∧
    r.2.state.gatewayPort = scanPorts probe closeError portsToCheck [] ∧
    (notify (scanPorts probe closeError portsToCheck []) = none →
      r.2.reloadCalls = scanPorts probe closeError portsToCheck [] :: w.reloadCalls) := by
  unfold gatewayOnStart at h
  rw [if_pos hempty] at h
  simp only [] at h
  rw [if_neg hscan] at h
  unfold State.SetGatewayPort at h
  cases hn : notify (scanPorts probe closeError portsToCheck []) with
  | some err =>
    rw [hn] at h
    simp only [Option.some.injEq] at h
    subst h
    exact ⟨rfl, rfl, fun hc => by cases hc⟩
  | none =>
    rw [hn] at h
    simp only [] at h
    unfold startGateway at h
    simp only [] at h
    split at h
    · cases h
    · simp only [Option.some.injEq] at h; subst h; exact ⟨rfl, rfl, fun _ => rfl⟩
    · simp only [Option.some.injEq] at h; subst h; exact ⟨rfl, rfl, fun _ => rfl⟩
    · simp only [Option.some.injEq] at h; subst h; exact ⟨rfl, rfl, fun _ => rfl⟩

/-- C11, the code at the failing input.  The port of the state is the empty
sentinel and no port can be bound.  (1) The start-up hook does not return
`ErrNoPortAvailable`: it calls `SetGatewayPort("8089")`, which commits 8089 to
the state, registers the reload, calls `reloadGateway("8089")` and returns the
bind error of that reload.  (2) Whatever `net.Listen` and `Close` do, the
variable `port` is not empty after the scan, so the test `port == ""` never
succeeds; (3) when no candidate port can be bound, `port` is `8089`, the last
port tried, and (4) every run of the hook that comes to an end has then
called `SetGatewayPort("8089")` and left 8089 in the state. -/
theorem gatewayOnStart_all_ports_busy :
    (∀ fuel, gatewayOnStart listenAllBusy (fun _ => none) (fun _ => none) listenAllBusy
        getsRefused freshStartup fuel
      = some (.returned (some ⟨"bind: address already in use"⟩),
          { state := { scenarioState with gatewayPort := ascii "8089" }
            gateways := { gateway := none, listeners := [], serving := [], stopping := [] }
            setPortCalls := [ascii "8089"]
            reloadCalls := [ascii "8089"]
            reloadRegistered := true
            ready := false })) ∧
    (∀ (probe : GoString → Except GoError GoString) (closeError : GoString → Option GoError),
      scanPorts probe closeError portsToCheck [] ≠ []) ∧
    (∀ (probe : GoString → Except GoError GoString) (closeError : GoString → Option GoError),
      (∀ p ∈ portsToCheck, ∃ e, probe (sprintfD p) = .error e) →
      scanPorts probe closeError portsToCheck [] = ascii "8089") ∧
    (∀ (probe : GoString → Except GoError GoString) (closeError notify : GoString → Option GoError)
      (netListen : GoString → Except GoError GoString) (gets : Nat → GetResult) (w : Startup)
      (fuel : Nat) (r : Outcome (Option GoError) × Startup),
      w.state.GetGatewayPort = [] →
      (∀ p ∈ portsToCheck, ∃ e, probe (sprintfD p) = .error e) →
      gatewayOnStart probe closeError notify netListen gets w fuel = some r →
      r.2.setPortCalls = ascii "8089" :: w.setPortCalls ∧
      r.2.state.gatewayPort = ascii "8089") := by
  have hne : ∀ (probe : GoString → Except GoError GoString)
      (closeError : GoString → Option GoError),
      scanPorts probe closeError portsToCheck [] ≠ [] := fun probe closeError =>
    scanPorts_ne_nil probe closeError portsToCheck [] sprintfD_ne_nil_of_mem
      (Or.inr (by decide))
  have hlast : ∀ (probe : GoString → Except GoError GoString)
      (closeError : GoString → Option GoError),
      (∀ p ∈ portsToCheck, ∃ e, probe (sprintfD p) = .error e) →
      scanPorts probe closeError portsToCheck [] = ascii "8089" := by
    intro probe closeError hall
    rw [scanPorts_all_busy probe closeError portsToCheck [] hall]
    decide
  refine ⟨fun fuel => rfl, hne, hlast, ?_⟩
  intro probe closeError notify netListen gets w fuel r hempty hall h
  have h1 := gatewayOnStart_after_scan probe closeError notify netListen gets w fuel r hempty
    (hne probe closeError) h
  rw [hlast probe closeError hall] at h1
  exact ⟨h1.1, h1.2.1⟩

end CasaOSGateway
